import Mathlib

/-!
Verification development for the thesis-planner roadmap pipeline
(`src/utils/generateThesisRoadmap.ts`).

The TypeScript source is embedded shallowly:
* JavaScript strings are `String` / `List Char`;
* `JSON.parse` is modelled by an executable strict JSON parser returning
  `Option Json` (`none` models a thrown `SyntaxError`); numeric literals keep
  their lexeme, which is injective and adequate for every claim below;
* thrown exceptions are modelled with `Except String`, the thrown value being
  the error message;
* the external HTTP calls (axios) and the generative-text service are
  parameters of the embedded functions, quantified over in the theorems.
-/

set_option maxHeartbeats 1000000

namespace ThesisPlanner

/-- JSON whitespace characters accepted by a strict `JSON.parse`
    (space, tab, line feed, carriage return). -/
def isJsonWs (c : Char) : Bool :=
  c = ' ' || c = '\t' || c = '\n' || c = '\r'

/-- Whitespace in the sense of the JavaScript regex class `\s` and of
    `String.prototype.trim` (restricted to the ASCII whitespace characters,
    which are the only ones the claims exercise). -/
def isJsWs (c : Char) : Bool :=
  c = ' ' || c = '\t' || c = '\n' || c = '\r' || c = Char.ofNat 11 || c = Char.ofNat 12

/-- Parsed JSON values as produced by `JSON.parse`.  Objects keep their
    members in textual order; numbers keep their lexeme. -/
inductive Json where
  | null : Json
  | bool (b : Bool) : Json
  | num (lexeme : String) : Json
  | str (s : String) : Json
  | arr (elems : List Json) : Json
  | obj (members : List (String × Json)) : Json

/-- Drop leading JSON whitespace. -/
def skipWsL (cs : List Char) : List Char := cs.dropWhile isJsonWs

/-- Single-character JSON string escapes. -/
def escChar (c : Char) : Option Char :=
  if c = '"' then some '"'
  else if c = '\\' then some '\\'
  else if c = '/' then some '/'
  else if c = 'b' then some (Char.ofNat 8)
  else if c = 'f' then some (Char.ofNat 12)
  else if c = 'n' then some '\n'
  else if c = 'r' then some '\r'
  else if c = 't' then some '\t'
  else none

/-- Hexadecimal digit value. -/
def hexVal (c : Char) : Option Nat :=
  if '0' ≤ c && c ≤ '9' then some (c.toNat - 48)
  else if 'a' ≤ c && c ≤ 'f' then some (c.toNat - 87)
  else if 'A' ≤ c && c ≤ 'F' then some (c.toNat - 55)
  else none

/-- Safe character construction for `\uXXXX` escapes (invalid scalar values,
    i.e. lone UTF-16 surrogates, are mapped to the zero character). -/
def uniChar (n : Nat) : Char := Char.ofNat n

/-- Parse the body of a JSON string after the opening quote; returns the
    unescaped content and the input remaining after the closing quote.
    Unescaped control characters (code below 32, e.g. a literal newline)
    make the parse fail, as in `JSON.parse`. -/
def parseStrBody : List Char → Option (List Char × List Char)
  | [] => none
  | c :: rest =>
    if c = '"' then some ([], rest)
    else if c = '\\' then
      match rest with
      | [] => none
      | e :: rest2 =>
        if e = 'u' then
          match rest2 with
          | h1 :: h2 :: h3 :: h4 :: rest3 =>
            match hexVal h1, hexVal h2, hexVal h3, hexVal h4 with
            | some a, some b, some c2, some d =>
              (parseStrBody rest3).map fun r =>
                (uniChar (((a * 16 + b) * 16 + c2) * 16 + d) :: r.1, r.2)
            | _, _, _, _ => none
          | _ => none
        else
          match escChar e with
          | some c2 => (parseStrBody rest2).map fun r => (c2 :: r.1, r.2)
          | none => none
    else if c.toNat < 32 then none
    else (parseStrBody rest).map fun r => (c :: r.1, r.2)

/-- Fractional part of a JSON number (possibly empty). -/
def parseFrac (cs : List Char) : Option (List Char × List Char) :=
  match cs with
  | '.' :: rest =>
    match rest.takeWhile Char.isDigit with
    | [] => none
    | ds => some ('.' :: ds, rest.dropWhile Char.isDigit)
  | _ => some ([], cs)

/-- Exponent part of a JSON number (possibly empty). -/
def parseExp (cs : List Char) : Option (List Char × List Char) :=
  match cs with
  | c :: rest =>
    if c = 'e' || c = 'E' then
      let p := match rest with
        | '+' :: r => (['+'], r)
        | '-' :: r => (['-'], r)
        | _ => (([] : List Char), rest)
      match p.2.takeWhile Char.isDigit with
      | [] => none
      | ds => some (c :: (p.1 ++ ds), p.2.dropWhile Char.isDigit)
    else some ([], cs)
  | [] => some ([], [])

/-- Integer part of a JSON number: `0`, or a nonzero digit followed by
    digits.  Leading zeros are rejected, as in `JSON.parse`. -/
def parseIntPart (cs : List Char) : Option (List Char × List Char) :=
  match cs with
  | '0' :: rest => some (['0'], rest)
  | c :: rest =>
    if c.isDigit then some (c :: rest.takeWhile Char.isDigit, rest.dropWhile Char.isDigit)
    else none
  | [] => none

/-- Lexeme of a JSON number (sign, integer part, fraction, exponent). -/
def parseNumLex (cs : List Char) : Option (List Char × List Char) :=
  let p := match cs with
    | '-' :: rest => ((['-'] : List Char), rest)
    | _ => (([] : List Char), cs)
  match parseIntPart p.2 with
  | none => none
  | some (ip, r1) =>
    match parseFrac r1 with
    | none => none
    | some (fp, r2) =>
      match parseExp r2 with
      | none => none
      | some (ep, r3) => some (p.1 ++ ip ++ fp ++ ep, r3)

mutual

/-- Fuelled recursive-descent parser for one JSON value.  The caller has
    already skipped leading whitespace. -/
def parseV : Nat → List Char → Option (Json × List Char)
  | 0, _ => none
  | Nat.succ f, cs =>
    match cs with
    | '{' :: rest =>
      match skipWsL rest with
      | '}' :: r2 => some (Json.obj [], r2)
      | r1 => (parseMembersV f r1).map fun p => (Json.obj p.1, p.2)
    | '[' :: rest =>
      match skipWsL rest with
      | ']' :: r2 => some (Json.arr [], r2)
      | r1 => (parseElemsV f r1).map fun p => (Json.arr p.1, p.2)
    | '"' :: rest => (parseStrBody rest).map fun p => (Json.str (String.mk p.1), p.2)
    | 't' :: 'r' :: 'u' :: 'e' :: rest => some (Json.bool true, rest)
    | 'f' :: 'a' :: 'l' :: 's' :: 'e' :: rest => some (Json.bool false, rest)
    | 'n' :: 'u' :: 'l' :: 'l' :: rest => some (Json.null, rest)
    | _ => (parseNumLex cs).map fun p => (Json.num (String.mk p.1), p.2)

/-- Parse the members of a JSON object, positioned (after whitespace) at the
    opening quote of a key. -/
def parseMembersV : Nat → List Char → Option (List (String × Json) × List Char)
  | 0, _ => none
  | Nat.succ f, cs =>
    match cs with
    | [] => none
    | c :: r =>
      if c = '"' then
        match parseStrBody r with
        | none => none
        | some p =>
          match skipWsL p.2 with
          | [] => none
          | c2 :: r2 =>
            if c2 = ':' then
              match parseV f (skipWsL r2) with
              | none => none
              | some q =>
                match skipWsL q.2 with
                | [] => none
                | c3 :: r4 =>
                  if c3 = ',' then
                    (parseMembersV f (skipWsL r4)).map fun p2 =>
                      ((String.mk p.1, q.1) :: p2.1, p2.2)
                  else if c3 = '}' then some ([(String.mk p.1, q.1)], r4)
                  else none
            else none
      else none

/-- Parse the elements of a JSON array, positioned (after whitespace) at the
    first character of an element. -/
def parseElemsV : Nat → List Char → Option (List Json × List Char)
  | 0, _ => none
  | Nat.succ f, cs =>
    match parseV f cs with
    | none => none
    | some (v, r1) =>
      match skipWsL r1 with
      | ',' :: r2 => (parseElemsV f (skipWsL r2)).map fun p => (v :: p.1, p.2)
      | ']' :: r2 => some ([v], r2)
      | _ => none

end

/-- Strict JSON parse on character lists: whitespace, one value, whitespace,
    end of input.  `none` models a thrown `SyntaxError`. -/
def JSONparseL (cs : List Char) : Option Json :=
  match parseV (cs.length + 1) (skipWsL cs) with
  | some (v, rest) => if skipWsL rest = [] then some v else none
  | none => none

/-- Strict JSON parse on strings: the model of `JSON.parse`. -/
def JSONparse (s : String) : Option Json := JSONparseL s.data

/-! ## Markdown fence stripping

Models `rawString.replace(/^```json\s*/im, '').replace(/\s*```$/im, '').trim()`.
Both regexes are non-global, so only the leftmost match is removed. -/

/-- Does the text at this position start with a (case-insensitive) ` ```json `
    fence marker? -/
def fenceJsonLead : List Char → Bool
  | a :: b :: c :: d :: e :: f :: g :: _ =>
    a = '`' && b = '`' && c = '`' &&
      d.toLower = 'j' && e.toLower = 's' && f.toLower = 'o' && g.toLower = 'n'
  | _ => false

/-- Remove the leftmost line-start occurrence of ` ```json ` together with the
    following whitespace run; `lineStart` records whether the current position
    is the start of the string or follows a newline. -/
def stripLeadFrom (lineStart : Bool) : List Char → List Char
  | [] => []
  | c :: rest =>
    if lineStart && fenceJsonLead (c :: rest) then
      ((c :: rest).drop 7).dropWhile isJsWs
    else c :: stripLeadFrom (c = '\n') rest

/-- Does the text at this position start with ` ``` `? -/
def fence3 : List Char → Bool
  | a :: b :: c :: _ => a = '`' && b = '`' && c = '`'
  | _ => false

/-- Is the text at this position exactly ` ``` ` followed by end of input or a
    newline (the `/m` meaning of `$`)? -/
def fenceEolOk : List Char → Bool
  | a :: b :: c :: rest =>
    a = '`' && b = '`' && c = '`' &&
      (match rest with
       | [] => true
       | d :: _ => d = '\n')
  | _ => false

/-- Does the text contain ` ``` ` anywhere? -/
def hasTriple : List Char → Bool
  | [] => false
  | c :: rest => fence3 (c :: rest) || hasTriple rest

/-- Greedy-with-backtracking search for `\s*```$` anchored at the current
    position: try the longest whitespace run first, then shorter ones.
    Returns the input remaining after the match. -/
def findFenceK : Nat → List Char → Option (List Char)
  | 0, cs => if fenceEolOk cs then some (cs.drop 3) else none
  | Nat.succ k, cs =>
    if fenceEolOk (cs.drop (k + 1)) then some (cs.drop (k + 4)) else findFenceK k cs

/-- Attempt to match `\s*```$` at the current position. -/
def tryTrail (cs : List Char) : Option (List Char) :=
  findFenceK (cs.takeWhile isJsWs).length cs

/-- Remove the leftmost match of `\s*```$` (non-global replace): scan left to
    right, and at the first position where the pattern matches, drop the
    matched characters and keep the rest. -/
def goTrail : List Char → List Char
  | [] => []
  | c :: rest =>
    match tryTrail (c :: rest) with
    | some rem => rem
    | none => c :: goTrail rest

/-- Drop leading JavaScript whitespace. -/
def ltrimJs (cs : List Char) : List Char := cs.dropWhile isJsWs

/-- Drop trailing JavaScript whitespace. -/
def rtrimJs (cs : List Char) : List Char := (cs.reverse.dropWhile isJsWs).reverse

/-- Model of `String.prototype.trim`. -/
def trimJs (cs : List Char) : List Char := rtrimJs (ltrimJs cs)

/-- Both fence-removal passes in source order. -/
def stripFences (cs : List Char) : List Char := goTrail (stripLeadFrom true cs)

/-! ## Refusal heuristic and substring search -/

/-- Is `pat` a leading part of `cs`? -/
def leadMatch : List Char → List Char → Bool
  | [], _ => true
  | _ :: _, [] => false
  | p :: ps, c :: cs => p = c && leadMatch ps cs

/-- Model of `String.prototype.includes`. -/
def containsSub (pat : List Char) : List Char → Bool
  | [] => leadMatch pat []
  | c :: rest => leadMatch pat (c :: rest) || containsSub pat rest

/-- The heuristic short-circuit of `extractAndParseJson`: text that does not
    begin with `[` or `{`, is shorter than 200 characters and mentions
    `error` or `sorry` is treated as a plain-text reply and discarded. -/
def looksNonJson (t : List Char) : Bool :=
  !(leadMatch ['['] t || leadMatch ['{'] t) &&
    (t.length < 200 && (containsSub ("error".data) t || containsSub ("sorry".data) t))

/-! ## The scoped newline repair pass

Models
`jsonString.replace(/:\s*"((\\"|[^"])*?)"/g, (m, g1) => ': "' + g1.replace(/(?<!\\)\n/g, '\\n') + '"')`
followed by the analogous single-quote pass. -/

/-- Replace every literal newline that is not preceded by a backslash with the
    two-character sequence `\n`; `prev` is the previous character of the
    original text (the lookbehind examines the original text). -/
def escNLgo (prev : Option Char) : List Char → List Char
  | [] => []
  | c :: rest =>
    if c = '\n' then
      if prev = some '\\' then '\n' :: escNLgo (some '\n') rest
      else '\\' :: 'n' :: escNLgo (some '\n') rest
    else c :: escNLgo (some c) rest

/-- Newline-escaping applied to a captured string body. -/
def escNL (cs : List Char) : List Char := escNLgo none cs

/-- Lazy scan for the regex group `((\\"|[^"])*?)` followed by a closing
    double quote: stop at the first unescaped quote, trying the escaped-quote
    alternative first and backtracking to `[^"]` when no later closing quote
    exists.  Returns the group body and the input after the closing quote. -/
def scanBodyDQ : List Char → Option (List Char × List Char)
  | [] => none
  | c :: rest =>
    if c = '"' then some ([], rest)
    else if c = '\\' then
      match rest with
      | [] => none
      | d :: rest2 =>
        if d = '"' then
          match scanBodyDQ rest2 with
          | some p => some ('\\' :: '"' :: p.1, p.2)
          | none => some (['\\'], rest2)
        else (scanBodyDQ (d :: rest2)).map fun p => (c :: p.1, p.2)
    else (scanBodyDQ rest).map fun p => (c :: p.1, p.2)

/-- After a colon, match `\s*"((\\"|[^"])*?)"`. -/
def matchDQ (rest : List Char) : Option (List Char × List Char) :=
  match rest.dropWhile isJsWs with
  | '"' :: r2 => scanBodyDQ r2
  | _ => none

/-- Fuelled scan for the global double-quote repair pass: at each colon try to
    match a quoted value span; on a match, emit the normalized replacement
    `: "<escaped body>"` and resume after the span, otherwise keep scanning. -/
def repairDQgo : Nat → List Char → List Char
  | 0, cs => cs
  | Nat.succ f, cs =>
    match cs with
    | [] => []
    | c :: rest =>
      if c = ':' then
        match matchDQ rest with
        | some p => ':' :: ' ' :: '"' :: (escNL p.1 ++ '"' :: repairDQgo f p.2)
        | none => ':' :: repairDQgo f rest
      else c :: repairDQgo f rest

/-- The double-quote repair pass. -/
def repairDQ (cs : List Char) : List Char := repairDQgo (cs.length + 1) cs

/-- The single-quote character (apostrophe). -/
def sqChar : Char := Char.ofNat 39

/-- After a colon, match `\s*'([^']*)'`. -/
def matchSQ (rest : List Char) : Option (List Char × List Char) :=
  match rest.dropWhile isJsWs with
  | c :: r2 =>
    if c = sqChar then
      match r2.dropWhile (fun d => d ≠ sqChar) with
      | _ :: r4 => some (r2.takeWhile (fun d => d ≠ sqChar), r4)
      | [] => none
    else none
  | [] => none

/-- Fuelled scan for the global single-quote repair pass. -/
def repairSQgo : Nat → List Char → List Char
  | 0, cs => cs
  | Nat.succ f, cs =>
    match cs with
    | [] => []
    | c :: rest =>
      if c = ':' then
        match matchSQ rest with
        | some p => ':' :: ' ' :: sqChar :: (escNL p.1 ++ sqChar :: repairSQgo f p.2)
        | none => ':' :: repairSQgo f rest
      else c :: repairSQgo f rest

/-- The single-quote repair pass. -/
def repairSQ (cs : List Char) : List Char := repairSQgo (cs.length + 1) cs

/-- The complete repair pass of `extractAndParseJson`, in source order. -/
def repairL (cs : List Char) : List Char := repairSQ (repairDQ cs)

/-- The repair pass on strings. -/
def repairString (s : String) : String := String.mk (repairL s.data)

/-! ## `extractAndParseJson` -/

/-- The non-falsy path of `extractAndParseJson`: strip fences, trim, apply the
    refusal heuristic, then strict parse, then repair and strict parse. -/
def extractCore (cs : List Char) : Option Json :=
  let t := trimJs (stripFences cs)
  if looksNonJson t then none
  else
    match JSONparseL t with
    | some v => some v
    | none => JSONparseL (repairL t)

/-- Model of `extractAndParseJson` from the source: `none` both for the
    JavaScript `null` result and for falsy input (`null`, `undefined`, the
    empty string).  The `context` argument is used only for logging in the
    source and does not influence the result. -/
def extractAndParseJson (rawString : Option String) (context : String) : Option Json :=
  match rawString with
  | none => none
  | some s => if s = "" then none else extractCore s.data

/-! ## JavaScript falsy-default helpers -/

/-- `v || d` for JavaScript strings: the empty string is falsy. -/
def jsOrStr (v : Option String) (d : String) : String :=
  match v with
  | some s => if s = "" then d else s
  | none => d

/-- Truthiness filter for JavaScript strings. -/
def jsTruthyStr (v : Option String) : Option String :=
  match v with
  | some s => if s = "" then none else some s
  | none => none

/-- `v || d` for JavaScript numbers restricted to integers: `0` is falsy. -/
def jsOrInt (v : Option Int) (d : Int) : Int :=
  match v with
  | some n => if n = 0 then d else n
  | none => d

/-! ## The canonical paper record and the provider adapters -/

/-- The canonical normalized paper record produced by every adapter. -/
structure ResearchPaper where
  title : String
  url : String
  paperLink : String
  abstract : String
  citationCount : Int
  authors : String
deriving DecidableEq

/-- Model of `invertAbstract`'s position-to-word map: a JavaScript object with
    numeric keys; assignment overwrites the binding of an existing key in
    place and appends a new key. -/
def alSet (m : List (Nat × String)) (p : Nat) (w : String) : List (Nat × String) :=
  match m with
  | [] => [(p, w)]
  | (q, v) :: rest => if q = p then (q, w) :: rest else (q, v) :: alSet rest p w

/-- Indexing a position-to-word map (`map[pos]`); total because it is only
    applied to keys of the map. -/
def alGet (m : List (Nat × String)) (p : Nat) : String :=
  match m with
  | [] => ""
  | (q, v) :: rest => if q = p then v else alGet rest p

/-- The map-building loops of `invertAbstract`: for each word, for each of its
    positions, set `map[pos] = word`.  The inverted index is modelled as an
    association list in the object's key-enumeration order. -/
def buildPosMap (idx : List (String × List Nat)) : List (Nat × String) :=
  idx.foldl (fun m e => e.2.foldl (fun m2 p => alSet m2 p e.1) m) []

/-- Model of `invertAbstract`: build the position-to-word map, sort the keys
    ascending (`Object.keys(map).map(Number).sort((a,b) => a-b)`), and join
    the words with single spaces.  The `!invertedIndex` guard of the source is
    handled by the `Option` at the call site. -/
def invertAbstract (idx : List (String × List Nat)) : String :=
  let m := buildPosMap idx
  let ks := List.insertionSort (· ≤ ·) (m.map Prod.fst)
  String.intercalate " " (ks.map (alGet m))

/-- One entry of Semantic Scholar's `authors` array. -/
structure SemAuthor where
  name : Option String
deriving DecidableEq

/-- One paper of Semantic Scholar's response, with every field optional as in
    the untyped traversal of the source. -/
structure SemPaper where
  title : Option String
  url : Option String
  abstract : Option String
  citationCount : Option Int
  authors : Option (List SemAuthor)
deriving DecidableEq

/-- The body (`response.data`) of a Semantic Scholar response; `data = none`
    models a missing or non-array `data` field. -/
structure SemResponse where
  data : Option (List SemPaper)

/-- Normalization of one Semantic Scholar paper (the arrow function inside
    `fetchFromSemanticScholar`). -/
def mapSemPaper (p : SemPaper) : ResearchPaper where
  title := jsOrStr p.title ("Untitled")
  url := jsOrStr p.url ("")
  paperLink := jsOrStr p.url ("")
  abstract := jsOrStr p.abstract ("No abstract available")
  citationCount := jsOrInt p.citationCount 0
  authors := jsOrStr (p.authors.map fun l =>
    String.intercalate ", " (l.map fun a => a.name.getD "")) ("Unknown authors")

/-- `fetchFromSemanticScholar`, parameterized by the outcome of its axios
    call (`.error` models a network failure or thrown error). -/
def fetchFromSemanticScholar (net : Except String SemResponse) :
    Except String (List ResearchPaper) :=
  match net with
  | .error e => .error e
  | .ok resp =>
    match resp.data with
    | some l => if l.length > 0 then .ok (l.map mapSemPaper) else .ok []
    | none => .error ("Invalid data format received from Semantic Scholar")

/-- The `author` object inside an OpenAlex authorship. -/
structure OAAuthor where
  display_name : Option String
deriving DecidableEq

/-- One entry of OpenAlex's `authorships` array. -/
structure OAAuthorship where
  author : Option OAAuthor
deriving DecidableEq

/-- OpenAlex's `primary_location` object. -/
structure OALocation where
  landing_page_url : Option String
  pdf_url : Option String
deriving DecidableEq

/-- One work of OpenAlex's response. -/
structure OAPaper where
  display_name : Option String
  id : Option String
  primary_location : Option OALocation
  abstract_inverted_index : Option (List (String × List Nat))
  cited_by_count : Option Int
  authorships : Option (List OAAuthorship)
deriving DecidableEq

/-- The body of an OpenAlex response. -/
structure OAResponse where
  results : Option (List OAPaper)

/-- `paper.id.split('/').pop()`. -/
def lastSlashComponent (s : String) : String :=
  match (s.splitOn ("/")).getLast? with
  | some t => t
  | none => ""

/-- Normalization of one OpenAlex work. -/
def mapOAPaper (p : OAPaper) : ResearchPaper where
  title := jsOrStr p.display_name ("Untitled")
  url :=
    match jsTruthyStr p.id with
    | some i => "https://openalex.org/" ++ lastSlashComponent i
    | none => ""
  paperLink :=
    match jsTruthyStr (p.primary_location.bind OALocation.landing_page_url) with
    | some u => u
    | none =>
      match jsTruthyStr (p.primary_location.bind OALocation.pdf_url) with
      | some u => u
      | none => ""
  abstract :=
    match p.abstract_inverted_index with
    | some idx => invertAbstract idx
    | none => "No abstract available"
  citationCount := jsOrInt p.cited_by_count 0
  authors := jsOrStr (p.authorships.map fun l =>
    String.intercalate ", "
      ((l.map fun a => (a.author.bind OAAuthor.display_name).getD "").filter
        fun s => s ≠ "")) ("Unknown authors")

/-- `fetchFromOpenAlex`, parameterized by the outcome of its axios call. -/
def fetchFromOpenAlex (net : Except String OAResponse) :
    Except String (List ResearchPaper) :=
  match net with
  | .error e => .error e
  | .ok resp =>
    match resp.results with
    | some l => if l.length > 0 then .ok (l.map mapOAPaper) else .ok []
    | none => .error ("Invalid data format received from OpenAlex")

/-- One work of CORE's response. -/
structure CorePaper where
  title : Option String
  doi : Option String
  downloadUrl : Option String
  abstract : Option String
  citationCount : Option Int
  authors : Option (List String)
deriving DecidableEq

/-- The body of a CORE response. -/
structure CoreResponse where
  results : Option (List CorePaper)

/-- Normalization of one CORE work (note `??` rather than `||` for
    `citationCount`). -/
def mapCorePaper (p : CorePaper) : ResearchPaper where
  title := jsOrStr p.title ("Untitled")
  url :=
    match jsTruthyStr p.doi with
    | some d => "https://doi.org/" ++ d
    | none => jsOrStr p.downloadUrl ("")
  paperLink :=
    match jsTruthyStr p.downloadUrl with
    | some u => u
    | none =>
      match jsTruthyStr p.doi with
      | some d => "https://doi.org/" ++ d
      | none => ""
  abstract := jsOrStr p.abstract ("No abstract available")
  citationCount := p.citationCount.getD 0
  authors := jsOrStr (p.authors.map fun l => String.intercalate ", " l) ("Unknown authors")

/-- `CORE_API_KEY = process.env.CORE_API_KEY || "YOUR_CORE_API_KEY"`. -/
def coreApiKeyOf (env : Option String) : String :=
  match env with
  | some s => if s = "" then "YOUR_CORE_API_KEY" else s
  | none => "YOUR_CORE_API_KEY"

/-- `fetchFromCORE`, parameterized by the module-level key and the outcome of
    its axios call.  The guard returns `[]` before any network interaction. -/
def fetchFromCORE (key : String) (net : Except String CoreResponse) :
    Except String (List ResearchPaper) :=
  if key = "" || key = "YOUR_CORE_API_KEY" then .ok []
  else
    match net with
    | .error e => .error e
    | .ok resp =>
      match resp.results with
      | some l => if l.length > 0 then .ok (l.map mapCorePaper) else .ok []
      | none => .error ("Invalid data format received from CORE")

/-- The literature-search side of the outside world: per-provider behaviors,
    as functions of the query string. -/
structure Net where
  semanticScholar : String → Except String SemResponse
  openAlex : String → Except String OAResponse
  core : String → Except String CoreResponse

/-- `fetchRelatedPapers`: the provider fallback chain, unrolled over the fixed
    provider array `[Semantic Scholar, OpenAlex, CORE]`.  A thrown adapter
    error or an empty success falls through to the next provider; a non-empty
    success returns immediately; exhaustion returns `[]`. -/
def fetchRelatedPapers (coreKey : String) (net : Net) (thesisDescription : String) :
    List ResearchPaper :=
  let coreStep : List ResearchPaper :=
    match fetchFromCORE coreKey (net.core thesisDescription) with
    | .ok l => if l.length > 0 then l else []
    | .error _ => []
  let oaStep : List ResearchPaper :=
    match fetchFromOpenAlex (net.openAlex thesisDescription) with
    | .ok l => if l.length > 0 then l else coreStep
    | .error _ => coreStep
  match fetchFromSemanticScholar (net.semanticScholar thesisDescription) with
  | .ok l => if l.length > 0 then l else oaStep
  | .error _ => oaStep

/-! ## The Gemini gateway (`callGemini`) -/

/-- One entry of a candidate's `content.parts`. -/
structure GeminiPart where
  text : Option String
deriving DecidableEq

/-- A candidate's `content`. -/
structure GeminiContent where
  parts : Option (List GeminiPart)
deriving DecidableEq

/-- One generation candidate. -/
structure GeminiCandidate where
  finishReason : Option String
  content : Option GeminiContent
deriving DecidableEq

/-- The response's `promptFeedback`. -/
structure PromptFeedback where
  blockReason : Option String
deriving DecidableEq

/-- The body (`response.data`) of a Gemini response; wrapping it in `Option`
    models a falsy body. -/
structure GeminiData where
  promptFeedback : Option PromptFeedback
  candidates : Option (List GeminiCandidate)
deriving DecidableEq

/-- `candidate.content?.parts?.[0]?.text`. -/
def candidateText (c : GeminiCandidate) : Option String :=
  ((c.content.bind GeminiContent.parts).bind fun ps => ps.head?).bind GeminiPart.text

/-- `response.data.candidates?.[0]?.finishReason || 'UNKNOWN'`, used in the
    no-candidates error message. -/
def noCandFinishReason (d : GeminiData) : String :=
  (jsTruthyStr ((d.candidates.bind fun l => l.head?).bind GeminiCandidate.finishReason)).getD
    "UNKNOWN"

/-- The validation sequence inside `callGemini`'s `try` block, applied to the
    axios response body: empty body, blocked prompt, missing candidates, and
    missing text are checked in this order; an abnormal finish reason is only
    logged and does not affect the result. -/
def callGeminiInner (data : Option GeminiData) : Except String String :=
  match data with
  | none => .error ("Empty response from Gemini API")
  | some d =>
    match jsTruthyStr (d.promptFeedback.bind PromptFeedback.blockReason) with
    | some br => .error ("AI request blocked due to safety settings: " ++ br)
    | none =>
      match d.candidates with
      | none => .error ("No response generated by AI. Reason: " ++ noCandFinishReason d)
      | some [] => .error ("No response generated by AI. Reason: " ++ noCandFinishReason d)
      | some (c :: _) =>
        match jsTruthyStr (candidateText c) with
        | some t => .ok t
        | none => .error ("Invalid response structure from Gemini API (missing text)")

/-- `callGemini`, parameterized by the outcome of its axios call.  Every
    failure — a network error or any validation error — is caught by the
    surrounding `catch` and rethrown as one message naming the context. -/
def callGemini (net : Except String (Option GeminiData)) (context : String) :
    Except String String :=
  match (match net with
         | .error e => (.error e : Except String String)
         | .ok d => callGeminiInner d) with
  | .ok t => .ok t
  | .error _ => .error ("Failed to get response from AI for " ++ context ++ ".")

/-! ## The pipeline orchestrator (`generateThesisRoadmap`)

The generative-text service is abstracted as a function from the stage
context string (the second argument of every `callGemini` call, distinct
across the five stages) to the outcome of that call — `.ok` carrying the raw
text, `.error` carrying the thrown message.  Each stage calls the service at
most once, so this captures every possible behavior of the five calls. -/

/-- `JSON.stringify([{ error: "Failed to prepare data for research ranking." }])`. -/
def rankErrorMarker : String :=
  "[\x7b\"error\":\"Failed to prepare data for research ranking.\"\x7d]"

/-- `JSON.stringify({ error: "Failed to prepare data for research gap analysis." })`. -/
def gapErrorMarker : String :=
  "\x7b\"error\":\"Failed to prepare data for research gap analysis.\"\x7d"

/-- `JSON.stringify({ error: "Failed to prepare data for pros and cons analysis." })`. -/
def prosErrorMarker : String :=
  "\x7b\"error\":\"Failed to prepare data for pros and cons analysis.\"\x7d"

/-- `rankAndSummarizePapersLLM`: the whole body, including the `callGemini`
    call, sits in a `try` whose `catch` returns a stringified error marker.
    The preparation code (`JSON.stringify` of the typed paper list) cannot
    throw in the model, so the only throw site is the gateway call. -/
def rankAndSummarizePapersLLM (llm : String → Except String String)
    (thesisDescription : String) (papers : List ResearchPaper) : String :=
  match llm ("rank and summarize papers") with
  | .ok s => s
  | .error _ => rankErrorMarker

/-- `generateResearchGapAnalysisLLM`, guarded like the ranking stage.  The
    non-array guard of the source is unreachable in the model because the
    paper list is typed. -/
def generateResearchGapAnalysisLLM (llm : String → Except String String)
    (relatedPapers : List ResearchPaper) (thesisDescription : String) : String :=
  match llm ("research gap analysis") with
  | .ok s => s
  | .error _ => gapErrorMarker

/-- `generateProsAndConsLLM`, guarded like the ranking stage. -/
def generateProsAndConsLLM (llm : String → Except String String)
    (relatedPapers : List ResearchPaper) (thesisDescription : String) : String :=
  match llm ("pros and cons") with
  | .ok s => s
  | .error _ => prosErrorMarker

/-- The result object returned to the HTTP layer. -/
structure ThesisRoadmapOutput where
  thesisDescription : String
  stepByStep : Option Json
  relatedPapers : Option Json
  methodology : Option Json
  researchGapAnalysis : Option Json
  prosAndCons : Option Json
  error : Option String

/-- The error message of the top-level `catch`
    (`error.message || 'Unknown error'`). -/
def roadmapErrMsg (e : String) : String :=
  "Failed to generate thesis roadmap: " ++ (if e = "" then "Unknown error" else e)

/-- The result assembled by the top-level `catch`: every raw text captured so
    far is still parsed, and the error message is attached. -/
def catchOutput (topic : String) (rawS rawR rawM rawG rawP : Option String)
    (e : String) : ThesisRoadmapOutput where
  thesisDescription := topic
  stepByStep := extractAndParseJson rawS ("stepByStep (on error)")
  relatedPapers := extractAndParseJson rawR ("relatedPapers (on error)")
  methodology := extractAndParseJson rawM ("methodology (on error)")
  researchGapAnalysis := extractAndParseJson rawG ("researchGapAnalysis (on error)")
  prosAndCons := extractAndParseJson rawP ("prosAndCons (on error)")
  error := some (roadmapErrMsg e)

/-- The comma-joined list of section names that failed to parse. -/
def parseFailDetails (pStep pRank pMeth pGaps pPros : Option Json) : String :=
  String.intercalate ", " (List.filterMap id
    [if pStep.isNone then some ("step-by-step guide") else none,
     if pRank.isNone then some ("ranked papers") else none,
     if pMeth.isNone then some ("methodology") else none,
     if pGaps.isNone then some ("research gaps") else none,
     if pPros.isNone then some ("pros and cons") else none])

/-- `generateThesisRoadmap`: the six-stage pipeline.  Stages 1 and 4 are the
    unguarded `callGemini` calls whose failure jumps to the top-level `catch`
    with only the raw texts captured so far; stages 3, 5 and 6 are locally
    guarded and always produce a string.  Totality of this function is the
    model of "always resolves, never rejects". -/
def generateThesisRoadmap (llm : String → Except String String) (coreKey : String)
    (net : Net) (thesisDescription : String) : ThesisRoadmapOutput :=
  match llm ("step-by-step guide") with
  | .error e => catchOutput thesisDescription none none none none none e
  | .ok stepRaw =>
    let papersList := fetchRelatedPapers coreKey net thesisDescription
    let rankedRaw := rankAndSummarizePapersLLM llm thesisDescription papersList
    match llm ("methodology") with
    | .error e =>
      catchOutput thesisDescription (some stepRaw) (some rankedRaw) none none none e
    | .ok methRaw =>
      let gapsRaw := generateResearchGapAnalysisLLM llm papersList thesisDescription
      let prosRaw := generateProsAndConsLLM llm papersList thesisDescription
      let pStep := extractAndParseJson (some stepRaw) ("stepByStep")
      let pRank := extractAndParseJson (some rankedRaw) ("relatedPapers (ranked)")
      let pMeth := extractAndParseJson (some methRaw) ("methodology")
      let pGaps := extractAndParseJson (some gapsRaw) ("researchGapAnalysis")
      let pPros := extractAndParseJson (some prosRaw) ("prosAndCons")
      if pStep.isNone || pRank.isNone || pMeth.isNone || pGaps.isNone || pPros.isNone then
        { thesisDescription := thesisDescription
          stepByStep := pStep
          relatedPapers := pRank
          methodology := pMeth
          researchGapAnalysis := pGaps
          prosAndCons := pPros
          error := some ("Failed to parse the following sections from the AI: " ++
            parseFailDetails pStep pRank pMeth pGaps pPros ++
            ". The structure might be invalid.") }
      else
        { thesisDescription := thesisDescription
          stepByStep := pStep
          relatedPapers := pRank
          methodology := pMeth
          researchGapAnalysis := pGaps
          prosAndCons := pPros
          error := none }

/-! ## Theorems -/

/-- An adapter attempt that does not short-circuit the chain: an empty
    success or a thrown error. -/
def failedOrEmpty (r : Except String (List ResearchPaper)) : Prop :=
  r = .ok [] ∨ ∃ e, r = .error e

/-- C3: `fetchRelatedPapers` never raises (it is a total function into
    `List ResearchPaper`); it tries Semantic Scholar, then OpenAlex, then
    CORE; a non-empty success returns immediately and the result does not
    depend on the behavior of any later adapter (the "never invoked"
    property, stated extensionally); an empty success or a thrown error falls
    through to the next adapter; and exhaustion of all three yields `[]`. -/
theorem C3_fallback_chain (key : String) (net : Net) (topic : String) :
    (∀ l, fetchFromSemanticScholar (net.semanticScholar topic) = .ok l → l ≠ [] →
      fetchRelatedPapers key net topic = l ∧
      ∀ net' : Net, net'.semanticScholar = net.semanticScholar →
        fetchRelatedPapers key net' topic = l) ∧
    (failedOrEmpty (fetchFromSemanticScholar (net.semanticScholar topic)) →
      ∀ l, fetchFromOpenAlex (net.openAlex topic) = .ok l → l ≠ [] →
        fetchRelatedPapers key net topic = l ∧
        ∀ net' : Net, net'.semanticScholar = net.semanticScholar →
          net'.openAlex = net.openAlex → fetchRelatedPapers key net' topic = l) ∧
    (failedOrEmpty (fetchFromSemanticScholar (net.semanticScholar topic)) →
      failedOrEmpty (fetchFromOpenAlex (net.openAlex topic)) →
      ∀ l, fetchFromCORE key (net.core topic) = .ok l → l ≠ [] →
        fetchRelatedPapers key net topic = l) ∧
    (failedOrEmpty (fetchFromSemanticScholar (net.semanticScholar topic)) →
      failedOrEmpty (fetchFromOpenAlex (net.openAlex topic)) →
      failedOrEmpty (fetchFromCORE key (net.core topic)) →
      fetchRelatedPapers key net topic = []) := by
  refine ⟨?_, ?_, ?_, ?_⟩
  · intro l hl hne
    have hlen : 0 < l.length := List.length_pos.mpr hne
    refine ⟨by simp [fetchRelatedPapers, hl, hlen], ?_⟩
    intro net' hs
    simp [fetchRelatedPapers, hs, hl, hlen]
  · intro hsem l hl hne
    have hlen : 0 < l.length := List.length_pos.mpr hne
    refine ⟨?_, ?_⟩
    · rcases hsem with h | ⟨e, h⟩ <;> simp [fetchRelatedPapers, h, hl, hlen]
    · intro net' hs ho
      rcases hsem with h | ⟨e, h⟩ <;>
        simp [fetchRelatedPapers, hs, ho, h, hl, hlen]
  · intro hsem hoa l hl hne
    have hlen : 0 < l.length := List.length_pos.mpr hne
    rcases hsem with h | ⟨e, h⟩ <;> rcases hoa with h2 | ⟨e2, h2⟩ <;>
      simp [fetchRelatedPapers, h, h2, hl, hlen]
  · intro hsem hoa hcore
    rcases hsem with h | ⟨e, h⟩ <;> rcases hoa with h2 | ⟨e2, h2⟩ <;>
      rcases hcore with h3 | ⟨e3, h3⟩ <;>
        simp [fetchRelatedPapers, h, h2, h3]

/-- Witness for C3 at a concrete configuration: with Semantic Scholar
    returning one paper, the chain returns exactly that paper, whatever the
    other adapters would do. -/
theorem C3_fallback_chain_witness :
    fetchRelatedPapers ("k")
      { semanticScholar := fun _ => .ok ⟨some [⟨none, none, none, none, none⟩]⟩
        openAlex := fun _ => .error "down"
        core := fun _ => .error "down" } ("t") =
      [⟨"Untitled", "", "", "No abstract available", 0, "Unknown authors"⟩] :=
  ((C3_fallback_chain ("k")
      { semanticScholar := fun _ => .ok ⟨some [⟨none, none, none, none, none⟩]⟩
        openAlex := fun _ => .error "down"
        core := fun _ => .error "down" } ("t")).1
    [⟨"Untitled", "", "", "No abstract available", 0, "Unknown authors"⟩]
    rfl (by simp)).1

/-- C10: when the configured CORE key is absent (or blank, or the placeholder
    value), `fetchFromCORE` returns `.ok []` whatever the network would have
    answered — in particular its result does not depend on the network at
    all, which is the observable content of "no request is issued" — and the
    third entry of the fallback chain can then never supply papers: once the
    first two adapters are exhausted the chain returns `[]`. -/
theorem C10_core_key_guard (env : Option String)
    (henv : env = none ∨ env = some ("YOUR_CORE_API_KEY") ∨ env = some ("")) :
    (∀ net : Except String CoreResponse, fetchFromCORE (coreApiKeyOf env) net = .ok []) ∧
    (∀ net net' : Except String CoreResponse,
      fetchFromCORE (coreApiKeyOf env) net = fetchFromCORE (coreApiKeyOf env) net') ∧
    (∀ (net : Net) (topic : String),
      failedOrEmpty (fetchFromSemanticScholar (net.semanticScholar topic)) →
      failedOrEmpty (fetchFromOpenAlex (net.openAlex topic)) →
      fetchRelatedPapers (coreApiKeyOf env) net topic = []) := by
  have hkey : coreApiKeyOf env = "YOUR_CORE_API_KEY" := by
    rcases henv with h | h | h <;> simp [h, coreApiKeyOf]
  have hok : ∀ net : Except String CoreResponse,
      fetchFromCORE (coreApiKeyOf env) net = .ok [] := by
    intro net; simp [fetchFromCORE, hkey]
  refine ⟨hok, fun net net' => by rw [hok, hok], ?_⟩
  intro net topic hsem hoa
  rcases hsem with h | ⟨e, h⟩ <;> rcases hoa with h2 | ⟨e2, h2⟩ <;>
    simp [fetchRelatedPapers, h, h2, hok (net.core topic)]

/-- Witness for C10: with the key unset, CORE yields no papers even when the
    network would have answered with a result. -/
theorem C10_core_key_guard_witness :
    fetchFromCORE (coreApiKeyOf none)
      (.ok ⟨some [⟨some ("T"), none, none, none, none, none⟩]⟩) = .ok [] :=
  (C10_core_key_guard none (Or.inl rfl)).1
    (.ok ⟨some [⟨some ("T"), none, none, none, none, none⟩]⟩)

/-- C9, counterexample: the Semantic Scholar adapter passes a negative source
    `citationCount` straight through (`paper.citationCount || 0` only
    substitutes the default for a falsy value), so the emitted record violates
    the claimed non-negativity invariant. -/
theorem C9_defaults_cx :
    fetchFromSemanticScholar (.ok ⟨some [⟨none, none, none, some (-1), none⟩]⟩) =
      .ok [⟨"Untitled", "", "", "No abstract available", -1, "Unknown authors"⟩] ∧
    (-1 : Int) < 0 :=
  ⟨rfl, by decide⟩

/-- C9, amended: every field of an emitted `ResearchPaper` is present by
    construction (the record type is total), the documented defaults are
    substituted for missing (or falsy) source fields in all three adapters,
    and `citationCount` is non-negative whenever the provider's count is
    non-negative or absent — the adapters default it but do not clamp it. -/
theorem C9_defaults_amended :
    (∀ p : SemPaper,
      ((p.title = none ∨ p.title = some ("")) → (mapSemPaper p).title = "Untitled") ∧
      ((p.url = none ∨ p.url = some ("")) →
        (mapSemPaper p).url = "" ∧ (mapSemPaper p).paperLink = "") ∧
      ((p.abstract = none ∨ p.abstract = some ("")) →
        (mapSemPaper p).abstract = "No abstract available") ∧
      (p.citationCount = none → (mapSemPaper p).citationCount = 0) ∧
      (p.authors = none → (mapSemPaper p).authors = "Unknown authors") ∧
      (∀ n, p.citationCount = some n → 0 ≤ n → 0 ≤ (mapSemPaper p).citationCount)) ∧
    (∀ p : OAPaper,
      ((p.display_name = none ∨ p.display_name = some ("")) →
        (mapOAPaper p).title = "Untitled") ∧
      ((p.id = none ∨ p.id = some ("")) → (mapOAPaper p).url = "") ∧
      (p.primary_location = none → (mapOAPaper p).paperLink = "") ∧
      (p.abstract_inverted_index = none →
        (mapOAPaper p).abstract = "No abstract available") ∧
      (p.cited_by_count = none → (mapOAPaper p).citationCount = 0) ∧
      (p.authorships = none → (mapOAPaper p).authors = "Unknown authors") ∧
      (∀ n, p.cited_by_count = some n → 0 ≤ n → 0 ≤ (mapOAPaper p).citationCount)) ∧
    (∀ p : CorePaper,
      ((p.title = none ∨ p.title = some ("")) → (mapCorePaper p).title = "Untitled") ∧
      ((p.doi = none ∨ p.doi = some ("")) → (p.downloadUrl = none ∨ p.downloadUrl = some ("")) →
        (mapCorePaper p).url = "" ∧ (mapCorePaper p).paperLink = "") ∧
      ((p.abstract = none ∨ p.abstract = some ("")) →
        (mapCorePaper p).abstract = "No abstract available") ∧
      (p.citationCount = none → (mapCorePaper p).citationCount = 0) ∧
      (p.authors = none → (mapCorePaper p).authors = "Unknown authors") ∧
      (∀ n, p.citationCount = some n → 0 ≤ n → 0 ≤ (mapCorePaper p).citationCount)) := by
  refine ⟨?_, ?_, ?_⟩
  · intro p
    refine ⟨?_, ?_, ?_, ?_, ?_, ?_⟩
    · rintro (h | h) <;> simp [mapSemPaper, jsOrStr, h]
    · rintro (h | h) <;> simp [mapSemPaper, jsOrStr, h]
    · rintro (h | h) <;> simp [mapSemPaper, jsOrStr, h]
    · intro h; simp [mapSemPaper, jsOrInt, h]
    · intro h; simp [mapSemPaper, jsOrStr, h]
    · intro n h hn
      simp only [mapSemPaper, jsOrInt, h]
      split <;> omega
  · intro p
    refine ⟨?_, ?_, ?_, ?_, ?_, ?_, ?_⟩
    · rintro (h | h) <;> simp [mapOAPaper, jsOrStr, h]
    · rintro (h | h) <;> simp [mapOAPaper, jsTruthyStr, h]
    · intro h; simp [mapOAPaper, jsTruthyStr, h]
    · intro h; simp [mapOAPaper, h]
    · intro h; simp [mapOAPaper, jsOrInt, h]
    · intro h; simp [mapOAPaper, jsOrStr, h]
    · intro n h hn
      simp only [mapOAPaper, jsOrInt, h]
      split <;> omega
  · intro p
    refine ⟨?_, ?_, ?_, ?_, ?_, ?_⟩
    · rintro (h | h) <;> simp [mapCorePaper, jsOrStr, h]
    · rintro (h | h) (h2 | h2) <;> simp [mapCorePaper, jsTruthyStr, jsOrStr, h, h2]
    · rintro (h | h) <;> simp [mapCorePaper, jsOrStr, h]
    · intro h; simp [mapCorePaper, h]
    · intro h; simp [mapCorePaper, jsOrStr, h]
    · intro n h hn; simp [mapCorePaper, h, hn]

/-- Witness for C9 at concrete records: an all-missing Semantic Scholar paper
    maps to the fully defaulted record, and a present non-negative count stays
    non-negative. -/
theorem C9_defaults_amended_witness :
    (mapSemPaper ⟨none, none, none, none, none⟩).title = "Untitled" ∧
    0 ≤ (mapSemPaper ⟨none, none, none, some 7, none⟩).citationCount :=
  ⟨(C9_defaults_amended.1 ⟨none, none, none, none, none⟩).1 (Or.inl rfl),
   (C9_defaults_amended.1 ⟨none, none, none, some 7, none⟩).2.2.2.2.2 7 rfl (by decide)⟩

/-- A string with a non-empty prefix is non-empty. -/
theorem strAppend_ne_empty (s t : String) (hs : s.data ≠ []) : s ++ t ≠ "" := by
  intro h
  apply hs
  have hd : (s ++ t).data = [] := by rw [h]
  rw [String.data_append] at hd
  exact (List.append_eq_nil.mp hd).1

/-- The top-level catch message is never empty. -/
theorem roadmapErrMsg_ne_empty (e : String) : roadmapErrMsg e ≠ "" :=
  strAppend_ne_empty _ _ (by decide)

/-- The partial-parse error message is never empty. -/
theorem parseFailMsg_ne_empty (a b c d f : Option Json) :
    "Failed to parse the following sections from the AI: " ++ parseFailDetails a b c d f ++
      ". The structure might be invalid." ≠ "" := by
  intro h
  have hd := congrArg String.data h
  simp only [String.data_append] at hd
  have h2 := (List.append_eq_nil.mp (List.append_eq_nil.mp hd).1).1
  exact absurd h2 (by decide)

/-- Did an unguarded gateway call (stage 1 or stage 4) fail?  This is the
    only way an exception can interrupt the stage sequence. -/
def stageAborted (llm : String → Except String String) : Prop :=
  (∃ e, llm ("step-by-step guide") = .error e) ∨ (∃ e, llm ("methodology") = .error e)

/-- C1: `generateThesisRoadmap` is a total function into
    `ThesisRoadmapOutput` — the model of "always resolves, never rejects" for
    every behavior of the literature-search and generative-text calls — whose
    result echoes the input topic verbatim, carries five `Option Json` content
    fields (parsed value or null by typing), and carries a non-empty error
    string whenever any field is null or an unguarded stage exception
    interrupted the sequence. -/
theorem C1_always_resolves (llm : String → Except String String) (coreKey : String)
    (net : Net) (topic : String) :
    (generateThesisRoadmap llm coreKey net topic).thesisDescription = topic ∧
    (((generateThesisRoadmap llm coreKey net topic).stepByStep = none ∨
      (generateThesisRoadmap llm coreKey net topic).relatedPapers = none ∨
      (generateThesisRoadmap llm coreKey net topic).methodology = none ∨
      (generateThesisRoadmap llm coreKey net topic).researchGapAnalysis = none ∨
      (generateThesisRoadmap llm coreKey net topic).prosAndCons = none) ∨
      stageAborted llm →
      ∃ msg, (generateThesisRoadmap llm coreKey net topic).error = some msg ∧ msg ≠ "") := by
  rcases h1 : llm ("step-by-step guide") with e | s1
  · refine ⟨by simp [generateThesisRoadmap, h1, catchOutput], fun _ => ?_⟩
    exact ⟨roadmapErrMsg e, by simp [generateThesisRoadmap, h1, catchOutput],
      roadmapErrMsg_ne_empty e⟩
  · rcases h4 : llm ("methodology") with e | s4
    · refine ⟨by simp [generateThesisRoadmap, h1, h4, catchOutput], fun _ => ?_⟩
      exact ⟨roadmapErrMsg e, by simp [generateThesisRoadmap, h1, h4, catchOutput],
        roadmapErrMsg_ne_empty e⟩
    · simp only [generateThesisRoadmap, h1, h4]
      split
      · refine ⟨rfl, fun _ => ?_⟩
        exact ⟨_, rfl, parseFailMsg_ne_empty _ _ _ _ _⟩
      · next hcond =>
        simp only [Bool.or_eq_true, Option.isNone_iff_eq_none, not_or] at hcond
        obtain ⟨⟨⟨⟨hs, hr⟩, hm⟩, hg⟩, hp⟩ := hcond
        refine ⟨rfl, fun hyp => ?_⟩
        rcases hyp with (hf | hf | hf | hf | hf) | hab
        · exact absurd hf hs
        · exact absurd hf hr
        · exact absurd hf hm
        · exact absurd hf hg
        · exact absurd hf hp
        · rcases hab with ⟨e, he⟩ | ⟨e, he⟩
          · rw [h1] at he; exact absurd he (by simp)
          · rw [h4] at he; exact absurd he (by simp)

/-- Witness for C1: with every gateway call failing, the pipeline still
    returns a result object with a non-empty error string. -/
theorem C1_always_resolves_witness :
    ∃ msg,
      (generateThesisRoadmap (fun _ => .error "boom") ("k")
        { semanticScholar := fun _ => .error "down"
          openAlex := fun _ => .error "down"
          core := fun _ => .error "down" } ("t")).error = some msg ∧ msg ≠ "" :=
  (C1_always_resolves (fun _ => .error "boom") ("k")
      { semanticScholar := fun _ => .error "down"
        openAlex := fun _ => .error "down"
        core := fun _ => .error "down" } ("t")).2
    (Or.inr (Or.inl ⟨"boom", rfl⟩))

/-- C4, counterexample: the input `"sorry"` (a valid JSON string literal) is
    discarded by the refusal heuristic — `extractAndParseJson` returns null
    although a strict parse succeeds, contradicting "returns the parsed value
    when a strict parse succeeds". -/
theorem C4_extract_total_cx :
    extractAndParseJson (some ("\"sorry\"")) ("ctx") = none ∧
    JSONparse ("\"sorry\"") = some (Json.str ("sorry")) :=
  ⟨rfl, rfl⟩

/-- C4, amended: `extractAndParseJson` is a total function (the model of
    "never throws"); it returns null for `null`/`undefined`/empty input and
    for malformed JSON such as `[{"a":1,]`; when the refusal heuristic does
    not trigger it returns the strict-parse value, else the repaired-parse
    value, else null; when the heuristic triggers it returns null without
    parsing. -/
theorem C4_extract_total_amended :
    (∀ ctx, extractAndParseJson none ctx = none) ∧
    (∀ ctx, extractAndParseJson (some ("")) ctx = none) ∧
    (∀ ctx, extractAndParseJson (some ("[\x7b\"a\":1,]")) ctx = none) ∧
    (∀ (s ctx : String), s ≠ "" →
      (looksNonJson (trimJs (stripFences s.data)) = true →
        extractAndParseJson (some s) ctx = none) ∧
      (looksNonJson (trimJs (stripFences s.data)) = false →
        (∀ v, JSONparseL (trimJs (stripFences s.data)) = some v →
          extractAndParseJson (some s) ctx = some v) ∧
        (JSONparseL (trimJs (stripFences s.data)) = none →
          ∀ w, JSONparseL (repairL (trimJs (stripFences s.data))) = some w →
            extractAndParseJson (some s) ctx = some w) ∧
        (JSONparseL (trimJs (stripFences s.data)) = none →
          JSONparseL (repairL (trimJs (stripFences s.data))) = none →
          extractAndParseJson (some s) ctx = none))) := by
  refine ⟨fun ctx => rfl, fun ctx => rfl, fun ctx => rfl, ?_⟩
  intro s ctx hne
  constructor
  · intro h
    simp [extractAndParseJson, hne, extractCore, h]
  · intro h
    refine ⟨?_, ?_, ?_⟩
    · intro v hv
      simp [extractAndParseJson, hne, extractCore, h, hv]
    · intro h0 w hw
      simp [extractAndParseJson, hne, extractCore, h, h0, hw]
    · intro h0 h1
      simp [extractAndParseJson, hne, extractCore, h, h0, h1]

/-- Witness for C4: a plain number parses strictly and is returned. -/
theorem C4_extract_total_amended_witness :
    extractAndParseJson (some ("1")) ("c") = some (Json.num ("1")) :=
  ((C4_extract_total_amended.2.2.2 ("1") ("c") (by decide)).2 rfl).1 (Json.num ("1")) rfl

/-- The generative-text service as a map from the five distinct stage context
    strings to the outcome of that stage's `callGemini` call. -/
def mkLLM (o1 o3 o4 o5 o6 : Except String String) : String → Except String String :=
  fun c =>
    if c = "step-by-step guide" then o1
    else if c = "rank and summarize papers" then o3
    else if c = "methodology" then o4
    else if c = "research gap analysis" then o5
    else if c = "pros and cons" then o6
    else .error "unexpected stage"

theorem mkLLM_step (o1 o3 o4 o5 o6 : Except String String) :
    mkLLM o1 o3 o4 o5 o6 ("step-by-step guide") = o1 := rfl

theorem mkLLM_rank (o1 o3 o4 o5 o6 : Except String String) :
    mkLLM o1 o3 o4 o5 o6 ("rank and summarize papers") = o3 := rfl

theorem mkLLM_meth (o1 o3 o4 o5 o6 : Except String String) :
    mkLLM o1 o3 o4 o5 o6 ("methodology") = o4 := rfl

theorem mkLLM_gap (o1 o3 o4 o5 o6 : Except String String) :
    mkLLM o1 o3 o4 o5 o6 ("research gap analysis") = o5 := rfl

theorem mkLLM_pros (o1 o3 o4 o5 o6 : Except String String) :
    mkLLM o1 o3 o4 o5 o6 ("pros and cons") = o6 := rfl

/-- The ranking-stage error marker parses to a non-null generic value. -/
theorem rankMarker_parsed (ctx : String) :
    extractAndParseJson (some rankErrorMarker) ctx =
      some (Json.arr [Json.obj
        [("error", Json.str ("Failed to prepare data for research ranking."))]]) := rfl

/-- The gap-analysis error marker parses to a non-null generic value. -/
theorem gapMarker_parsed (ctx : String) :
    extractAndParseJson (some gapErrorMarker) ctx =
      some (Json.obj
        [("error", Json.str ("Failed to prepare data for research gap analysis."))]) := rfl

/-- The pros/cons error marker parses to a non-null generic value. -/
theorem prosMarker_parsed (ctx : String) :
    extractAndParseJson (some prosErrorMarker) ctx =
      some (Json.obj
        [("error", Json.str ("Failed to prepare data for pros and cons analysis."))]) := rfl

/-- C2: a gateway failure in stage 3, 5 or 6 is caught inside that stage and
    replaced by a stringified error marker that the extractor parses into a
    non-null value, while the remaining stages still run; a gateway failure in
    stage 1 or stage 4 propagates, aborts all remaining stages (their fields
    are null whatever their outcomes would have been), and the top-level catch
    still parses every raw text captured so far and sets a non-empty error. -/
theorem C2_stage_guard_asymmetry (s1 s4 s5 s6 e1 e3 e4 e5 e6 coreKey topic : String)
    (net : Net) (o3 o4 o5 o6 : Except String String) :
    -- stage 3 failure: locally guarded, marker parsed non-null, later stages run
    ((generateThesisRoadmap (mkLLM (.ok s1) (.error e3) (.ok s4) (.ok s5) (.ok s6))
        coreKey net topic).relatedPapers =
      some (Json.arr [Json.obj
        [("error", Json.str ("Failed to prepare data for research ranking."))]]) ∧
     (generateThesisRoadmap (mkLLM (.ok s1) (.error e3) (.ok s4) (.ok s5) (.ok s6))
        coreKey net topic).methodology = extractAndParseJson (some s4) ("methodology") ∧
     (generateThesisRoadmap (mkLLM (.ok s1) (.error e3) (.ok s4) (.ok s5) (.ok s6))
        coreKey net topic).researchGapAnalysis =
      extractAndParseJson (some s5) ("researchGapAnalysis") ∧
     (generateThesisRoadmap (mkLLM (.ok s1) (.error e3) (.ok s4) (.ok s5) (.ok s6))
        coreKey net topic).prosAndCons = extractAndParseJson (some s6) ("prosAndCons")) ∧
    -- stage 5 failure: locally guarded, stage 6 still runs
    ((generateThesisRoadmap (mkLLM (.ok s1) o3 (.ok s4) (.error e5) (.ok s6))
        coreKey net topic).researchGapAnalysis =
      some (Json.obj
        [("error", Json.str ("Failed to prepare data for research gap analysis."))]) ∧
     (generateThesisRoadmap (mkLLM (.ok s1) o3 (.ok s4) (.error e5) (.ok s6))
        coreKey net topic).prosAndCons = extractAndParseJson (some s6) ("prosAndCons")) ∧
    -- stage 6 failure: locally guarded
    ((generateThesisRoadmap (mkLLM (.ok s1) o3 (.ok s4) (.ok s5) (.error e6))
        coreKey net topic).prosAndCons =
      some (Json.obj
        [("error", Json.str ("Failed to prepare data for pros and cons analysis."))]) ∧
     (generateThesisRoadmap (mkLLM (.ok s1) o3 (.ok s4) (.ok s5) (.error e6))
        coreKey net topic).researchGapAnalysis =
      extractAndParseJson (some s5) ("researchGapAnalysis")) ∧
    -- stage 1 failure: aborts everything, whatever the other stages would do
    ((generateThesisRoadmap (mkLLM (.error e1) o3 o4 o5 o6) coreKey net topic).stepByStep =
        none ∧
     (generateThesisRoadmap (mkLLM (.error e1) o3 o4 o5 o6) coreKey net topic).relatedPapers =
        none ∧
     (generateThesisRoadmap (mkLLM (.error e1) o3 o4 o5 o6) coreKey net topic).methodology =
        none ∧
     (generateThesisRoadmap (mkLLM (.error e1) o3 o4 o5 o6) coreKey net
        topic).researchGapAnalysis = none ∧
     (generateThesisRoadmap (mkLLM (.error e1) o3 o4 o5 o6) coreKey net topic).prosAndCons =
        none ∧
     (generateThesisRoadmap (mkLLM (.error e1) o3 o4 o5 o6) coreKey net topic).error =
        some (roadmapErrMsg e1) ∧ roadmapErrMsg e1 ≠ "") ∧
    -- stage 4 failure: stages 5 and 6 are aborted, captured raw texts are parsed
    ((generateThesisRoadmap (mkLLM (.ok s1) o3 (.error e4) o5 o6) coreKey net
        topic).stepByStep = extractAndParseJson (some s1) ("stepByStep (on error)") ∧
     (generateThesisRoadmap (mkLLM (.ok s1) o3 (.error e4) o5 o6) coreKey net
        topic).relatedPapers =
      extractAndParseJson
        (some (rankAndSummarizePapersLLM (mkLLM (.ok s1) o3 (.error e4) o5 o6) topic
          (fetchRelatedPapers coreKey net topic))) ("relatedPapers (on error)") ∧
     (generateThesisRoadmap (mkLLM (.ok s1) o3 (.error e4) o5 o6) coreKey net
        topic).researchGapAnalysis = none ∧
     (generateThesisRoadmap (mkLLM (.ok s1) o3 (.error e4) o5 o6) coreKey net
        topic).prosAndCons = none ∧
     (generateThesisRoadmap (mkLLM (.ok s1) o3 (.error e4) o5 o6) coreKey net topic).error =
        some (roadmapErrMsg e4) ∧ roadmapErrMsg e4 ≠ "") := by
  refine ⟨⟨?_, ?_, ?_, ?_⟩, ⟨?_, ?_⟩, ⟨?_, ?_⟩, ?_, ?_⟩
  · simp only [generateThesisRoadmap, mkLLM_step, mkLLM_meth, rankAndSummarizePapersLLM,
      mkLLM_rank]
    split <;> simp [rankMarker_parsed]
  · simp only [generateThesisRoadmap, mkLLM_step, mkLLM_meth]
    split <;> simp
  · simp only [generateThesisRoadmap, mkLLM_step, mkLLM_meth,
      generateResearchGapAnalysisLLM, mkLLM_gap]
    split <;> simp
  · simp only [generateThesisRoadmap, mkLLM_step, mkLLM_meth, generateProsAndConsLLM,
      mkLLM_pros]
    split <;> simp
  · simp only [generateThesisRoadmap, mkLLM_step, mkLLM_meth,
      generateResearchGapAnalysisLLM, mkLLM_gap]
    split <;> simp [gapMarker_parsed]
  · simp only [generateThesisRoadmap, mkLLM_step, mkLLM_meth, generateProsAndConsLLM,
      mkLLM_pros]
    split <;> simp
  · simp only [generateThesisRoadmap, mkLLM_step, mkLLM_meth, generateProsAndConsLLM,
      mkLLM_pros]
    split <;> simp [prosMarker_parsed]
  · simp only [generateThesisRoadmap, mkLLM_step, mkLLM_meth,
      generateResearchGapAnalysisLLM, mkLLM_gap]
    split <;> simp
  · refine ⟨?_, ?_, ?_, ?_, ?_, ?_, roadmapErrMsg_ne_empty e1⟩ <;>
      simp [generateThesisRoadmap, mkLLM_step, catchOutput, extractAndParseJson]
  · refine ⟨?_, ?_, ?_, ?_, ?_, roadmapErrMsg_ne_empty e4⟩ <;>
      simp [generateThesisRoadmap, mkLLM_step, mkLLM_meth, catchOutput,
        extractAndParseJson]

/-! ### Fence-stripping lemmas (claim C6) -/

/-- Wrapping a text in one leading ` ```json ` marker line and one trailing
    ` ``` ` marker line. -/
def wrapFence (s : String) : String := "```json\n" ++ s ++ "\n```"

theorem fence3_false (cs : List Char) (h : hasTriple cs = false) : fence3 cs = false := by
  cases cs with
  | nil => rfl
  | cons c rest =>
    simp only [hasTriple, Bool.or_eq_false_iff] at h
    exact h.1

theorem hasTriple_tail (c : Char) (rest : List Char) (h : hasTriple (c :: rest) = false) :
    hasTriple rest = false := by
  simp only [hasTriple, Bool.or_eq_false_iff] at h
  exact h.2

theorem hasTriple_drop : ∀ (k : Nat) (cs : List Char), hasTriple cs = false →
    hasTriple (cs.drop k) = false := by
  intro k
  induction k with
  | zero => intro cs h; simpa using h
  | succ k ih =>
    intro cs h
    cases cs with
    | nil => rfl
    | cons c rest => exact ih rest (hasTriple_tail c rest h)

theorem hasTriple_dropWhile (q : Char → Bool) : ∀ cs : List Char, hasTriple cs = false →
    hasTriple (cs.dropWhile q) = false := by
  intro cs
  induction cs with
  | nil => intro _; rfl
  | cons c rest ih =>
    intro h
    rw [List.dropWhile_cons]
    split
    · exact ih (hasTriple_tail c rest h)
    · exact h

theorem fenceEolOk_imp_fence3 (cs : List Char) (h : fenceEolOk cs = true) :
    fence3 cs = true := by
  rcases cs with _ | ⟨a, _ | ⟨b, _ | ⟨c, rest⟩⟩⟩ <;> simp_all [fenceEolOk, fence3]

theorem fenceJsonLead_imp_fence3 (cs : List Char) (h : fenceJsonLead cs = true) :
    fence3 cs = true := by
  rcases cs with _ | ⟨a, _ | ⟨b, _ | ⟨c, _ | ⟨d, _ | ⟨e, _ | ⟨f, _ | ⟨g, rest⟩⟩⟩⟩⟩⟩⟩ <;>
    simp_all [fenceJsonLead, fence3]

theorem findFenceK_none : ∀ (n : Nat) (cs : List Char),
    (∀ k, k ≤ n → fenceEolOk (cs.drop k) = false) → findFenceK n cs = none := by
  intro n
  induction n with
  | zero =>
    intro cs h
    have h0 := h 0 (Nat.le_refl 0)
    rw [List.drop_zero] at h0
    simp [findFenceK, h0]
  | succ k ih =>
    intro cs h
    simp only [findFenceK, h (k + 1) (Nat.le_refl _)]
    simp only [Bool.false_eq_true, if_false]
    exact ih cs fun j hj => h j (Nat.le_succ_of_le hj)

theorem tryTrail_none_of_hasTriple_false (cs : List Char) (h : hasTriple cs = false) :
    tryTrail cs = none := by
  unfold tryTrail
  apply findFenceK_none
  intro k _
  cases heol : fenceEolOk (cs.drop k) with
  | false => rfl
  | true =>
    have h3 := fenceEolOk_imp_fence3 _ heol
    rw [fence3_false _ (hasTriple_drop k cs h)] at h3
    exact absurd h3 (by simp)

theorem goTrail_id : ∀ cs : List Char, hasTriple cs = false → goTrail cs = cs := by
  intro cs
  induction cs with
  | nil => intro _; rfl
  | cons c rest ih =>
    intro h
    simp only [goTrail, tryTrail_none_of_hasTriple_false _ h]
    rw [ih (hasTriple_tail c rest h)]

theorem stripLeadFrom_id : ∀ (cs : List Char) (b : Bool), hasTriple cs = false →
    stripLeadFrom b cs = cs := by
  intro cs
  induction cs with
  | nil => intro b _; rfl
  | cons c rest ih =>
    intro b h
    have hf : fenceJsonLead (c :: rest) = false := by
      cases hfl : fenceJsonLead (c :: rest) with
      | false => rfl
      | true =>
        have h3 := fenceJsonLead_imp_fence3 _ hfl
        rw [fence3_false _ h] at h3
        exact absurd h3 (by simp)
    simp only [stripLeadFrom, hf, Bool.and_false, Bool.false_eq_true, if_false]
    rw [ih (c = '\n') (hasTriple_tail c rest h)]

theorem dropWhile_head_not (p : Char → Bool) (c : Char) (t : List Char) :
    ∀ l : List Char, l.dropWhile p = c :: t → p c = false := by
  intro l
  induction l with
  | nil => intro h; simp at h
  | cons a rest ih =>
    intro h
    rw [List.dropWhile_cons] at h
    split at h
    · exact ih h
    · next hp =>
      obtain ⟨h1, _⟩ := List.cons.injEq .. ▸ h
      subst h1
      simpa using hp

theorem dropWhile_idem (p : Char → Bool) (l : List Char) :
    (l.dropWhile p).dropWhile p = l.dropWhile p := by
  cases hd : l.dropWhile p with
  | nil => rfl
  | cons c t =>
    rw [List.dropWhile_cons, dropWhile_head_not p c t l hd]
    simp

theorem rtrimJs_all_ws (u : List Char) (h : u.dropWhile isJsWs = []) : rtrimJs u = [] := by
  unfold rtrimJs
  have hall : ∀ x ∈ u.reverse, isJsWs x := fun x hx =>
    List.dropWhile_eq_nil_iff.mp h x (List.mem_reverse.mp hx)
  rw [List.dropWhile_eq_nil_iff.mpr hall]
  rfl

theorem rtrim_cons (c : Char) (cs : List Char)
    (h : List.dropWhile isJsWs (c :: cs) ≠ []) : rtrimJs (c :: cs) = c :: rtrimJs cs := by
  by_cases hcs : List.dropWhile isJsWs cs = []
  · have hc : isJsWs c = false := by
      cases hcw : isJsWs c with
      | false => rfl
      | true =>
        exact absurd (by rw [List.dropWhile_cons, if_pos hcw]; exact hcs) h
    unfold rtrimJs
    rw [List.reverse_cons, List.dropWhile_append]
    have hrev : List.dropWhile isJsWs cs.reverse = [] :=
      List.dropWhile_eq_nil_iff.mpr fun x hx =>
        List.dropWhile_eq_nil_iff.mp hcs x (List.mem_reverse.mp hx)
    rw [hrev]
    simp [List.dropWhile_cons, hc]
  · unfold rtrimJs
    rw [List.reverse_cons, List.dropWhile_append]
    have hrev : ¬(List.dropWhile isJsWs cs.reverse).isEmpty = true := by
      simp only [List.isEmpty_iff]
      intro hnil
      exact hcs (List.dropWhile_eq_nil_iff.mpr fun x hx =>
        List.dropWhile_eq_nil_iff.mp hnil x (List.mem_reverse.mpr hx))
    rw [if_neg hrev, List.reverse_append]
    rfl

theorem rtrim_idem (u : List Char) : rtrimJs (rtrimJs u) = rtrimJs u := by
  unfold rtrimJs
  rw [List.reverse_reverse, dropWhile_idem]

theorem takeWhile_append_all (p : Char → Bool) :
    ∀ (u v : List Char), u.dropWhile p = [] →
      (u ++ v).takeWhile p = u ++ v.takeWhile p := by
  intro u
  induction u with
  | nil => intro v _; rfl
  | cons c t ih =>
    intro v h
    rw [List.dropWhile_cons] at h
    split at h
    · next hc =>
      simp only [List.cons_append, List.takeWhile_cons, hc, if_true]
      rw [ih v h]
    · simp at h

theorem takeWhile_append_stop (p : Char → Bool) :
    ∀ (u v : List Char), u.dropWhile p ≠ [] →
      (u ++ v).takeWhile p = u.takeWhile p := by
  intro u
  induction u with
  | nil => intro v h; simp at h
  | cons c t ih =>
    intro v h
    rw [List.dropWhile_cons] at h
    simp only [List.cons_append, List.takeWhile_cons]
    split at h
    · next hc => rw [hc]; simp only [if_true]; rw [ih v h]
    · next hc =>
      rw [Bool.eq_false_iff.mpr hc]
      simp

theorem takeWhile_length_lt (p : Char → Bool) :
    ∀ u : List Char, u.dropWhile p ≠ [] → (u.takeWhile p).length < u.length := by
  intro u
  induction u with
  | nil => intro h; simp at h
  | cons c t ih =>
    intro h
    rw [List.dropWhile_cons] at h
    rw [List.takeWhile_cons]
    split at h
    · next hc =>
      rw [hc]
      simpa using ih h
    · next hc =>
      rw [Bool.eq_false_iff.mpr hc]
      simp

theorem fenceEolOk_mid : ∀ u : List Char, hasTriple u = false → u ≠ [] →
    fenceEolOk (u ++ '\n' :: '`' :: '`' :: '`' :: []) = false := by
  intro u h hne
  rcases u with _ | ⟨a, _ | ⟨b, _ | ⟨c, rest⟩⟩⟩
  · exact absurd rfl hne
  · simp [fenceEolOk]
  · simp [fenceEolOk]
  · have hf3 : fence3 (a :: b :: c :: rest) = false := fence3_false _ h
    simp only [fence3] at hf3
    simp only [List.cons_append, fenceEolOk]
    rw [hf3]
    rfl

theorem tryTrail_allws (u : List Char) (h : u.dropWhile isJsWs = []) :
    tryTrail (u ++ '\n' :: '`' :: '`' :: '`' :: []) = some [] := by
  unfold tryTrail
  have htake : (u ++ '\n' :: '`' :: '`' :: '`' :: []).takeWhile isJsWs = u ++ ['\n'] := by
    rw [takeWhile_append_all isJsWs u _ h]
    rfl
  rw [htake, List.length_append]
  have hd1 : (u ++ '\n' :: '`' :: '`' :: '`' :: []).drop (u.length + 1) =
      '`' :: '`' :: '`' :: [] := by
    rw [← List.drop_drop, List.drop_left]
    rfl
  have hd2 : (u ++ '\n' :: '`' :: '`' :: '`' :: []).drop (u.length + 4) = [] := by
    rw [← List.drop_drop, List.drop_left]
    rfl
  simp only [List.length_cons, List.length_nil, findFenceK, hd1, hd2]
  rfl

theorem tryTrail_mid (cs : List Char) (h : hasTriple cs = false)
    (hws : cs.dropWhile isJsWs ≠ []) :
    tryTrail (cs ++ '\n' :: '`' :: '`' :: '`' :: []) = none := by
  unfold tryTrail
  rw [takeWhile_append_stop isJsWs cs _ hws]
  apply findFenceK_none
  intro k hk
  have hklt : k < cs.length := Nat.lt_of_le_of_lt hk (takeWhile_length_lt isJsWs cs hws)
  rw [List.drop_append_of_le_length (Nat.le_of_lt hklt)]
  refine fenceEolOk_mid (cs.drop k) (hasTriple_drop k cs h) ?_
  intro hnil
  have hlen := congrArg List.length hnil
  rw [List.length_drop] at hlen
  simp at hlen
  omega

theorem goTrail_wrap : ∀ cs : List Char, hasTriple cs = false →
    goTrail (cs ++ '\n' :: '`' :: '`' :: '`' :: []) = rtrimJs cs := by
  intro cs
  induction cs with
  | nil => intro _; rfl
  | cons c rest ih =>
    intro h
    have hstep : goTrail ((c :: rest) ++ '\n' :: '`' :: '`' :: '`' :: []) =
        (match tryTrail ((c :: rest) ++ '\n' :: '`' :: '`' :: '`' :: []) with
         | some rem => rem
         | none => c :: goTrail (rest ++ '\n' :: '`' :: '`' :: '`' :: [])) := rfl
    by_cases hws : List.dropWhile isJsWs (c :: rest) = []
    · have ht := tryTrail_allws (c :: rest) hws
      rw [hstep, ht, rtrimJs_all_ws _ hws]
    · have ht := tryTrail_mid (c :: rest) h hws
      rw [hstep, ht]
      show c :: goTrail (rest ++ '\n' :: '`' :: '`' :: '`' :: []) = rtrimJs (c :: rest)
      rw [ih (hasTriple_tail c rest h), rtrim_cons c rest hws]

theorem stripLead_wrap (s : String) :
    stripLeadFrom true (wrapFence s).data =
      List.dropWhile isJsWs (s.data ++ '\n' :: '`' :: '`' :: '`' :: []) := by
  have hdata : (wrapFence s).data =
      '`' :: '`' :: '`' :: 'j' :: 's' :: 'o' :: 'n' :: '\n' ::
        (s.data ++ '\n' :: '`' :: '`' :: '`' :: []) := by
    simp only [wrapFence, String.data_append, List.append_assoc]
    rfl
  rw [hdata]
  simp only [stripLeadFrom, fenceJsonLead]
  norm_num
  rfl

/-- C6, counterexample: wrapping a text that itself begins with a fence line
    changes the parsed result — the wrapped form parses to null, the unwrapped
    one to the empty array. -/
theorem C6_fence_wrap_cx :
    extractAndParseJson (some (wrapFence ("```json\n[]"))) ("c") = none ∧
    extractAndParseJson (some ("```json\n[]")) ("c") = some (Json.arr []) :=
  ⟨rfl, rfl⟩

/-- C6, amended: for every string that does not itself contain the ` ``` `
    fence marker, extraction of the fence-wrapped text and of the unwrapped
    text return the same parsed result.  (When the text contains its own
    marker, the non-global leading/trailing replacements can strip the wrong
    occurrence, as the counterexample shows.) -/
theorem C6_fence_wrap_amended (s : String) (ctx : String)
    (h : hasTriple s.data = false) :
    extractAndParseJson (some (wrapFence s)) ctx = extractAndParseJson (some s) ctx := by
  by_cases hs : s = ""
  · subst hs; rfl
  · have hwne : wrapFence s ≠ "" :=
      strAppend_ne_empty ("```json\n" ++ s) ("\n```") (by
        intro hx
        rw [String.data_append] at hx
        exact absurd (List.append_eq_nil.mp hx).1 (by decide))
    simp only [extractAndParseJson, if_neg hwne, if_neg hs]
    suffices htr : trimJs (stripFences (wrapFence s).data) = trimJs (stripFences s.data) by
      simp only [extractCore, htr]
    have hun : stripFences s.data = s.data := by
      unfold stripFences
      rw [stripLeadFrom_id s.data true h, goTrail_id s.data h]
    rw [hun]
    unfold stripFences
    rw [stripLead_wrap s]
    by_cases hws : List.dropWhile isJsWs s.data = []
    · rw [List.dropWhile_append, hws]
      simp only [List.isEmpty_nil, if_true]
      have : List.dropWhile isJsWs ('\n' :: '`' :: '`' :: '`' :: []) =
          '`' :: '`' :: '`' :: [] := rfl
      rw [this]
      have hgo : goTrail ('`' :: '`' :: '`' :: []) = [] := rfl
      rw [hgo]
      have hrhs : trimJs s.data = [] := by
        unfold trimJs ltrimJs
        rw [hws]
        rfl
      rw [hrhs]
      rfl
    · rw [List.dropWhile_append, if_neg (by simpa [List.isEmpty_iff] using hws)]
      rw [goTrail_wrap _ (hasTriple_dropWhile isJsWs s.data h)]
      obtain ⟨c, t, hd⟩ : ∃ c t, List.dropWhile isJsWs s.data = c :: t := by
        cases hdd : List.dropWhile isJsWs s.data with
        | nil => exact absurd hdd hws
        | cons c t => exact ⟨c, t, rfl⟩
      have hc : isJsWs c = false := dropWhile_head_not isJsWs c t s.data hd
      have hrd : rtrimJs (List.dropWhile isJsWs s.data) =
          c :: rtrimJs t := by
        rw [hd]
        refine rtrim_cons c t ?_
        rw [List.dropWhile_cons, if_neg (by simp [hc])]
        simp
      have h1 : ltrimJs (rtrimJs (List.dropWhile isJsWs s.data)) =
          rtrimJs (List.dropWhile isJsWs s.data) := by
        rw [hrd]
        unfold ltrimJs
        rw [List.dropWhile_cons, if_neg (by simp [hc])]
      unfold trimJs
      rw [h1, rtrim_idem]
      rfl

/-- Witness for C6 at a concrete string. -/
theorem C6_fence_wrap_amended_witness :
    extractAndParseJson (some (wrapFence ("[1]"))) ("c") =
      extractAndParseJson (some ("[1]")) ("c") :=
  C6_fence_wrap_amended ("[1]") ("c") (by decide)

/-! ### Scoped-repair lemmas (claim C5)

The family of JSON texts `{"<key>":<ws>"<b1>\n<b2>"}` — a single-field object
whose only defect is one literal newline inside the quoted field value — is
used to settle the claim: `famDefective` is the defective text, `famEscaped`
the same text with the newline pre-escaped, `famRepaired` the output of the
repair pass, and `famValue` the parsed value. -/

/-- Characters that a strict JSON parse accepts verbatim inside a string. -/
def strOk (c : Char) : Bool := !(c = '"') && !(c = '\\') && decide (32 ≤ c.toNat)

/-- Characters the lazy double-quote body scan consumes via `[^"]`. -/
def dqOk (c : Char) : Bool := !(c = '"') && !(c = '\\')

/-- Plain text characters: JSON-string-safe and free of the repair pass's and
    fence stripper's special characters. -/
def plainChar (c : Char) : Bool := strOk c && !(c = '`') && !(c = sqChar)

/-- Key characters: plain and colon-free (the repair regex keys on colons). -/
def cleanKey (u : List Char) : Bool := u.all fun c => plainChar c && !(c = ':')

/-- Body characters: plain. -/
def cleanBody (u : List Char) : Bool := u.all plainChar

/-- The defective family member: a literal newline inside the quoted value. -/
def famDefective (k w b1 b2 : List Char) : List Char :=
  '{' :: '"' :: (k ++ '"' :: ':' :: (w ++ '"' :: (b1 ++ '\n' :: (b2 ++ '"' :: '}' :: []))))

/-- The same text with the newline pre-escaped. -/
def famEscaped (k w b1 b2 : List Char) : List Char :=
  '{' :: '"' :: (k ++ '"' :: ':' :: (w ++ '"' :: (b1 ++ '\\' :: 'n' :: (b2 ++ '"' :: '}' :: []))))

/-- The output of the repair pass on the defective text: the newline is
    escaped inside the quoted span and the colon-to-quote whitespace is
    normalized to one space; all other characters are unchanged. -/
def famRepaired (k b1 b2 : List Char) : List Char :=
  '{' :: '"' :: (k ++ '"' :: ':' :: ' ' :: '"' :: (b1 ++ '\\' :: 'n' :: (b2 ++ '"' :: '}' :: [])))

/-- The common parsed value. -/
def famValue (k b1 b2 : List Char) : Json :=
  Json.obj [(String.mk k, Json.str (String.mk (b1 ++ '\n' :: b2)))]

theorem all_imp (p q : Char → Bool) (h : ∀ c, p c = true → q c = true) :
    ∀ u : List Char, u.all p = true → u.all q = true := fun u hu =>
  List.all_eq_true.mpr fun x hx => h x (List.all_eq_true.mp hu x hx)

theorem strOk_of_plain (c : Char) (h : plainChar c = true) : strOk c = true := by
  simp only [plainChar, Bool.and_eq_true] at h
  exact h.1.1

theorem strOk_facts (c : Char) (h : strOk c = true) :
    ¬c = '"' ∧ ¬c = '\\' ∧ 32 ≤ c.toNat := by
  simp only [strOk, Bool.and_eq_true, Bool.not_eq_eq_eq_not, Bool.not_true,
    decide_eq_true_eq, decide_eq_false_iff_not] at h
  exact ⟨h.1.1, h.1.2, h.2⟩

theorem skipWsL_cons_not (c : Char) (x : List Char) (hc : isJsonWs c = false) :
    skipWsL (c :: x) = c :: x := by
  unfold skipWsL
  rw [List.dropWhile_cons, hc]
  simp

theorem skipWsL_append_ws (w : List Char) (rest : List Char)
    (hw : w.all isJsonWs = true) : skipWsL (w ++ rest) = skipWsL rest := by
  unfold skipWsL
  rw [List.dropWhile_append,
    List.dropWhile_eq_nil_iff.mpr fun x hx => List.all_eq_true.mp hw x hx]
  simp

theorem parseStrBody_clean : ∀ (u : List Char) (rest : List Char),
    u.all strOk = true → parseStrBody (u ++ '"' :: rest) = some (u, rest) := by
  intro u
  induction u with
  | nil =>
    intro rest _
    show parseStrBody ('"' :: rest) = _
    rw [parseStrBody.eq_def]
    simp
  | cons c t ih =>
    intro rest hu
    rw [List.all_cons, Bool.and_eq_true] at hu
    obtain ⟨hq, hb, hn⟩ := strOk_facts c hu.1
    show parseStrBody (c :: (t ++ '"' :: rest)) = _
    rw [parseStrBody.eq_def]
    simp only [if_neg hq, if_neg hb, if_neg (by omega : ¬c.toNat < 32)]
    rw [ih rest hu.2]
    rfl

theorem parseStrBody_esc : ∀ (b1 b2 rest : List Char),
    b1.all strOk = true → b2.all strOk = true →
    parseStrBody (b1 ++ '\\' :: 'n' :: (b2 ++ '"' :: rest)) =
      some (b1 ++ '\n' :: b2, rest) := by
  intro b1
  induction b1 with
  | nil =>
    intro b2 rest _ h2
    show parseStrBody ('\\' :: 'n' :: (b2 ++ '"' :: rest)) = _
    rw [parseStrBody.eq_def]
    simp only [if_neg (by decide : ¬('\\' : Char) = '"'),
      if_pos (rfl : ('\\' : Char) = '\\'), if_neg (by decide : ¬('n' : Char) = 'u')]
    rw [show escChar 'n' = some '\n' from rfl]
    simp only []
    rw [parseStrBody_clean b2 rest h2]
    rfl
  | cons c t ih =>
    intro b2 rest h1 h2
    rw [List.all_cons, Bool.and_eq_true] at h1
    obtain ⟨hq, hb, hn⟩ := strOk_facts c h1.1
    show parseStrBody (c :: (t ++ '\\' :: 'n' :: (b2 ++ '"' :: rest))) = _
    rw [parseStrBody.eq_def]
    simp only [if_neg hq, if_neg hb, if_neg (by omega : ¬c.toNat < 32)]
    rw [ih b2 rest h1.2 h2]
    rfl

theorem parseStrBody_nl : ∀ (b1 rest : List Char), b1.all strOk = true →
    parseStrBody (b1 ++ '\n' :: rest) = none := by
  intro b1
  induction b1 with
  | nil =>
    intro rest _
    show parseStrBody ('\n' :: rest) = _
    rw [parseStrBody.eq_def]
    simp
  | cons c t ih =>
    intro rest h1
    rw [List.all_cons, Bool.and_eq_true] at h1
    obtain ⟨hq, hb, hn⟩ := strOk_facts c h1.1
    show parseStrBody (c :: (t ++ '\n' :: rest)) = _
    rw [parseStrBody.eq_def]
    simp only [if_neg hq, if_neg hb, if_neg (by omega : ¬c.toNat < 32)]
    rw [ih rest h1.2]
    rfl

theorem parseMembersV_fam (k w vb vi : List Char) (m : Nat)
    (hk : k.all strOk = true) (hw : w.all isJsonWs = true)
    (hvb : ∀ r, parseStrBody (vb ++ '"' :: r) = some (vi, r)) :
    parseMembersV (m + 2) ('"' :: (k ++ '"' :: ':' :: (w ++ '"' :: (vb ++ '"' :: '}' :: [])))) =
      some ([(String.mk k, Json.str (String.mk vi))], []) := by
  have hval : parseV (m + 1) ('"' :: (vb ++ '"' :: '}' :: [])) =
      some (Json.str (String.mk vi), '}' :: []) := by
    show parseV (Nat.succ m) _ = _
    rw [parseV.eq_def]
    simp only []
    rw [hvb ('}' :: [])]
    rfl
  show parseMembersV (Nat.succ (m + 1)) _ = _
  rw [parseMembersV.eq_def]
  simp only [if_pos (rfl : ('"' : Char) = '"')]
  rw [parseStrBody_clean k _ hk]
  simp only []
  rw [skipWsL_cons_not ':' _ rfl]
  simp only [if_pos (rfl : (':' : Char) = ':')]
  rw [skipWsL_append_ws w _ hw, skipWsL_cons_not '"' _ rfl, hval]
  try simp only []
  rw [skipWsL_cons_not '}' _ rfl]
  simp

theorem parseV_fam (k w vb vi : List Char) (m : Nat)
    (hk : k.all strOk = true) (hw : w.all isJsonWs = true)
    (hvb : ∀ r, parseStrBody (vb ++ '"' :: r) = some (vi, r)) :
    parseV (m + 3) ('{' :: '"' :: (k ++ '"' :: ':' :: (w ++ '"' :: (vb ++ '"' :: '}' :: [])))) =
      some (Json.obj [(String.mk k, Json.str (String.mk vi))], []) := by
  show parseV (Nat.succ (m + 2)) _ = _
  rw [parseV.eq_def]
  try simp only []
  rw [skipWsL_cons_not '"' _ rfl]
  split
  · next heq => simp at heq
  · rw [parseMembersV_fam k w vb vi m hk hw hvb]
    simp

theorem parseV_fam_defective (k w b1 b2 : List Char) (m : Nat)
    (hk : k.all strOk = true) (hw : w.all isJsonWs = true)
    (h1 : b1.all strOk = true) :
    parseV (m + 3) (famDefective k w b1 b2) = none := by
  have hval : parseV (m + 1) ('"' :: (b1 ++ '\n' :: (b2 ++ '"' :: '}' :: []))) = none := by
    show parseV (Nat.succ m) _ = _
    rw [parseV.eq_def]
    simp only []
    rw [parseStrBody_nl b1 _ h1]
    rfl
  have hmem : parseMembersV (m + 2)
      ('"' :: (k ++ '"' :: ':' :: (w ++ '"' :: (b1 ++ '\n' :: (b2 ++ '"' :: '}' :: []))))) =
      none := by
    show parseMembersV (Nat.succ (m + 1)) _ = _
    rw [parseMembersV.eq_def]
    simp only [if_pos (rfl : ('"' : Char) = '"')]
    rw [parseStrBody_clean k _ hk]
    simp only []
    rw [skipWsL_cons_not ':' _ rfl]
    simp only [if_pos (rfl : (':' : Char) = ':')]
    rw [skipWsL_append_ws w _ hw, skipWsL_cons_not '"' _ rfl, hval]
    simp
  show parseV (Nat.succ (m + 2)) _ = _
  rw [parseV.eq_def]
  simp only [famDefective]
  rw [skipWsL_cons_not '"' _ rfl]
  split
  · next heq => simp at heq
  · rw [hmem]
    simp

theorem key_strOk (k : List Char) (hk : cleanKey k = true) : k.all strOk = true :=
  all_imp _ _ (fun c h => by
    simp only [Bool.and_eq_true] at h
    exact strOk_of_plain c h.1) k hk

theorem body_strOk (b : List Char) (hb : cleanBody b = true) : b.all strOk = true :=
  all_imp _ _ strOk_of_plain b hb

theorem jsonWs_imp_jsWs (c : Char) (h : isJsonWs c = true) : isJsWs c = true := by
  simp only [isJsonWs, Bool.or_eq_true] at h
  simp only [isJsWs, Bool.or_eq_true]
  tauto

theorem dq_facts (c : Char) (h : dqOk c = true) : ¬c = '"' ∧ ¬c = '\\' := by
  simp only [dqOk, Bool.and_eq_true, Bool.not_eq_eq_eq_not, Bool.not_true,
    decide_eq_false_iff_not] at h
  exact h

theorem dq_of_strOk (c : Char) (h : strOk c = true) : dqOk c = true := by
  simp only [strOk, Bool.and_eq_true] at h
  simp only [dqOk, Bool.and_eq_true]
  exact h.1

theorem escNLgo_no_nl : ∀ (u : List Char) (prev : Option Char),
    u.all (fun c => !(c = '\n')) = true → escNLgo prev u = u := by
  intro u
  induction u with
  | nil => intro prev _; rfl
  | cons c t ih =>
    intro prev h
    rw [List.all_cons, Bool.and_eq_true] at h
    have hc : ¬c = '\n' := by simpa using h.1
    simp only [escNLgo, if_neg hc]
    rw [ih (some c) h.2]

theorem escNL_mid : ∀ (b1 : List Char) (prev : Option Char) (b2 : List Char),
    b1.all (fun c => !(c = '\n') && !(c = '\\')) = true →
    b2.all (fun c => !(c = '\n')) = true →
    ¬prev = some '\\' →
    escNLgo prev (b1 ++ '\n' :: b2) = b1 ++ '\\' :: 'n' :: b2 := by
  intro b1
  induction b1 with
  | nil =>
    intro prev b2 _ h2 hprev
    show escNLgo prev ('\n' :: b2) = _
    simp only [escNLgo, if_pos rfl, if_neg hprev]
    rw [escNLgo_no_nl b2 (some '\n') h2]
    simp
  | cons c t ih =>
    intro prev b2 h1 h2 hprev
    rw [List.all_cons, Bool.and_eq_true] at h1
    have hcn : ¬c = '\n' := by
      have := h1.1
      simp only [Bool.and_eq_true, Bool.not_eq_eq_eq_not, Bool.not_true,
        decide_eq_false_iff_not] at this
      exact this.1
    have hcb : ¬c = '\\' := by
      have := h1.1
      simp only [Bool.and_eq_true, Bool.not_eq_eq_eq_not, Bool.not_true,
        decide_eq_false_iff_not] at this
      exact this.2
    show escNLgo prev (c :: (t ++ '\n' :: b2)) = _
    simp only [escNLgo, if_neg hcn]
    rw [ih (some c) b2 h1.2 h2 (by simpa using hcb)]
    rfl

theorem scanBodyDQ_ok : ∀ (u rest : List Char), u.all dqOk = true →
    scanBodyDQ (u ++ '"' :: rest) = some (u, rest) := by
  intro u
  induction u with
  | nil =>
    intro rest _
    show scanBodyDQ ('"' :: rest) = _
    rw [scanBodyDQ.eq_def]
    simp
  | cons c t ih =>
    intro rest hu
    rw [List.all_cons, Bool.and_eq_true] at hu
    obtain ⟨hq, hb⟩ := dq_facts c hu.1
    show scanBodyDQ (c :: (t ++ '"' :: rest)) = _
    rw [scanBodyDQ.eq_def]
    simp only [if_neg hq, if_neg hb]
    rw [ih rest hu.2]
    rfl

theorem matchDQ_fam (w body rest2 : List Char) (hw : w.all isJsonWs = true)
    (hb : body.all dqOk = true) :
    matchDQ (w ++ '"' :: (body ++ '"' :: rest2)) = some (body, rest2) := by
  unfold matchDQ
  have hdw : (w ++ '"' :: (body ++ '"' :: rest2)).dropWhile isJsWs =
      '"' :: (body ++ '"' :: rest2) := by
    rw [List.dropWhile_append,
      List.dropWhile_eq_nil_iff.mpr fun x hx =>
        jsonWs_imp_jsWs x (List.all_eq_true.mp hw x hx)]
    simp [List.dropWhile_cons, show isJsWs '"' = false from rfl]
  rw [hdw]
  show scanBodyDQ (body ++ '"' :: rest2) = _
  exact scanBodyDQ_ok body rest2 hb

/-- The lazy body scan consumes an already-escaped `\n` sequence (the
    backslash via the `[^"]` alternative, since the next character is not a
    quote) and stops at the closing quote. -/
theorem scanBodyDQ_esc : ∀ (b1 b2 rest : List Char),
    b1.all dqOk = true → b2.all dqOk = true →
    scanBodyDQ (b1 ++ '\\' :: 'n' :: (b2 ++ '"' :: rest)) =
      some (b1 ++ '\\' :: 'n' :: b2, rest) := by
  intro b1
  induction b1 with
  | nil =>
    intro b2 rest _ h2
    show scanBodyDQ ('\\' :: 'n' :: (b2 ++ '"' :: rest)) = _
    rw [scanBodyDQ.eq_def]
    simp only [if_neg (show ¬('\\' : Char) = '"' by decide),
      if_pos (rfl : ('\\' : Char) = '\\'),
      if_neg (show ¬('n' : Char) = '"' by decide)]
    have h : scanBodyDQ (('n' :: b2) ++ '"' :: rest) = some ('n' :: b2, rest) :=
      scanBodyDQ_ok ('n' :: b2) rest (by
        rw [List.all_cons, Bool.and_eq_true]
        exact ⟨by decide, h2⟩)
    rw [show ('n' :: (b2 ++ '"' :: rest)) = (('n' :: b2) ++ '"' :: rest) from rfl, h]
    rfl
  | cons c t ih =>
    intro b2 rest h1 h2
    rw [List.all_cons, Bool.and_eq_true] at h1
    obtain ⟨hq, hb⟩ := dq_facts c h1.1
    show scanBodyDQ (c :: (t ++ '\\' :: 'n' :: (b2 ++ '"' :: rest))) = _
    rw [scanBodyDQ.eq_def]
    simp only [if_neg hq, if_neg hb]
    rw [ih b2 rest h1.2 h2]
    rfl

/-- `matchDQ` on a span whose body carries an already-escaped newline. -/
theorem matchDQ_esc (w b1 b2 rest2 : List Char) (hw : w.all isJsonWs = true)
    (h1 : b1.all dqOk = true) (h2 : b2.all dqOk = true) :
    matchDQ (w ++ '"' :: (b1 ++ '\\' :: 'n' :: (b2 ++ '"' :: rest2))) =
      some (b1 ++ '\\' :: 'n' :: b2, rest2) := by
  unfold matchDQ
  have hdw : (w ++ '"' :: (b1 ++ '\\' :: 'n' :: (b2 ++ '"' :: rest2))).dropWhile isJsWs =
      '"' :: (b1 ++ '\\' :: 'n' :: (b2 ++ '"' :: rest2)) := by
    rw [List.dropWhile_append,
      List.dropWhile_eq_nil_iff.mpr fun x hx =>
        jsonWs_imp_jsWs x (List.all_eq_true.mp hw x hx)]
    simp [List.dropWhile_cons, show isJsWs '"' = false from rfl]
  rw [hdw]
  show scanBodyDQ (b1 ++ '\\' :: 'n' :: (b2 ++ '"' :: rest2)) = _
  exact scanBodyDQ_esc b1 b2 rest2 h1 h2

/-- The newline-escaping substitution leaves a body whose only backslash is an
    already-escaped `\n` sequence untouched: there is no literal newline to
    replace. -/
theorem escNL_esc_id (b1 b2 : List Char)
    (h1 : b1.all (fun c => !(c = '\n')) = true)
    (h2 : b2.all (fun c => !(c = '\n')) = true) :
    escNL (b1 ++ '\\' :: 'n' :: b2) = b1 ++ '\\' :: 'n' :: b2 := by
  apply escNLgo_no_nl
  simp only [List.all_append, List.all_cons, h1, h2, Bool.and_eq_true, Bool.true_and,
    Bool.and_true]
  decide

theorem repairDQgo_nil : ∀ fl : Nat, repairDQgo fl [] = [] := by
  intro fl
  cases fl <;> rfl

theorem repairDQgo_prefix : ∀ (u : List Char) (fl : Nat) (v : List Char),
    u.all (fun c => !(c = ':')) = true →
    repairDQgo (u.length + fl) (u ++ v) = u ++ repairDQgo fl v := by
  intro u
  induction u with
  | nil => intro fl v _; simp
  | cons c t ih =>
    intro fl v h
    rw [List.all_cons, Bool.and_eq_true] at h
    have hc : ¬c = ':' := by simpa using h.1
    have harith : (c :: t).length + fl = Nat.succ (t.length + fl) := by
      simp [List.length_cons]
      omega
    rw [harith]
    show repairDQgo (Nat.succ (t.length + fl)) (c :: (t ++ v)) = _
    rw [repairDQgo.eq_def]
    simp only [if_neg hc]
    rw [ih fl v h.2]
    rfl

theorem repairDQgo_id : ∀ (fl : Nat) (u : List Char),
    u.all (fun c => !(c = ':')) = true → repairDQgo fl u = u := by
  intro fl
  induction fl with
  | zero => intro u _; rfl
  | succ f ih =>
    intro u h
    cases u with
    | nil => rfl
    | cons c t =>
      rw [List.all_cons, Bool.and_eq_true] at h
      have hc : ¬c = ':' := by simpa using h.1
      rw [repairDQgo.eq_def]
      simp only [if_neg hc]
      rw [ih t h.2]

theorem matchSQ_none (t : List Char) (h : t.all (fun c => !(c = sqChar)) = true) :
    matchSQ t = none := by
  unfold matchSQ
  cases hdw : t.dropWhile isJsWs with
  | nil => rfl
  | cons d r2 =>
    have hd : d ∈ t := (List.dropWhile_sublist isJsWs).subset (hdw ▸ List.mem_cons_self d r2)
    have hdsq : ¬d = sqChar := by
      have := List.all_eq_true.mp h d hd
      simpa using this
    simp [if_neg hdsq]

theorem repairSQgo_id : ∀ (fl : Nat) (u : List Char),
    u.all (fun c => !(c = sqChar)) = true → repairSQgo fl u = u := by
  intro fl
  induction fl with
  | zero => intro u _; rfl
  | succ f ih =>
    intro u h
    cases u with
    | nil => rfl
    | cons c t =>
      rw [List.all_cons, Bool.and_eq_true] at h
      rw [repairSQgo.eq_def]
      by_cases hc : c = ':'
      · simp only [if_pos hc, matchSQ_none t h.2]
        rw [ih t h.2, hc]
      · simp only [if_neg hc]
        rw [ih t h.2]

theorem plain_no_sq (c : Char) (h : plainChar c = true) : ¬c = sqChar := by
  simp only [plainChar, Bool.and_eq_true, Bool.not_eq_eq_eq_not, Bool.not_true,
    decide_eq_false_iff_not] at h
  exact h.2

theorem plain_no_tick (c : Char) (h : plainChar c = true) : ¬c = '`' := by
  simp only [plainChar, Bool.and_eq_true, Bool.not_eq_eq_eq_not, Bool.not_true,
    decide_eq_false_iff_not] at h
  exact h.1.2

theorem plain_no_nl (c : Char) (h : plainChar c = true) : ¬c = '\n' := by
  have h32 := (strOk_facts c (strOk_of_plain c h)).2.2
  intro hc
  subst hc
  revert h32
  decide

theorem plain_no_bs (c : Char) (h : plainChar c = true) : ¬c = '\\' :=
  (strOk_facts c (strOk_of_plain c h)).2.1

theorem cleanKey_plain (k : List Char) (hk : cleanKey k = true) : k.all plainChar = true :=
  all_imp _ _ (fun c h => by
    simp only [Bool.and_eq_true] at h
    exact h.1) k hk

theorem cleanKey_no_colon (k : List Char) (hk : cleanKey k = true) :
    k.all (fun c => !(c = ':')) = true :=
  all_imp _ _ (fun c h => by
    simp only [Bool.and_eq_true] at h
    exact h.2) k hk

theorem ws_no_tick (c : Char) (h : isJsonWs c = true) : ¬c = '`' := by
  simp only [isJsonWs, Bool.or_eq_true, decide_eq_true_eq] at h
  rcases h with ((h | h) | h) | h <;> (subst h; decide)

/-- The whole defective text is free of backticks, hence of fence markers. -/
theorem famDefective_no_tick (k w b1 b2 : List Char) (hk : cleanKey k = true)
    (hw : w.all isJsonWs = true) (h1 : cleanBody b1 = true) (h2 : cleanBody b2 = true) :
    (famDefective k w b1 b2).all (fun c => !(c = '`')) = true := by
  have hkt : k.all (fun c => !(c = '`')) = true :=
    all_imp _ _ (fun c h => by simpa using plain_no_tick c h) k (cleanKey_plain k hk)
  have hwt : w.all (fun c => !(c = '`')) = true :=
    all_imp _ _ (fun c h => by simpa using ws_no_tick c h) w hw
  have h1t : b1.all (fun c => !(c = '`')) = true :=
    all_imp _ _ (fun c h => by simpa using plain_no_tick c h) b1 h1
  have h2t : b2.all (fun c => !(c = '`')) = true :=
    all_imp _ _ (fun c h => by simpa using plain_no_tick c h) b2 h2
  simp only [famDefective, List.all_cons, List.all_append, hkt, hwt, h1t, h2t,
    Bool.and_eq_true, Bool.true_and, Bool.and_true]
  decide

theorem fence3_head_false (c : Char) (rest : List Char) (hc : ¬c = '`') :
    fence3 (c :: rest) = false := by
  rcases rest with _ | ⟨b, _ | ⟨d, r⟩⟩ <;> simp [fence3, hc]

theorem hasTriple_of_no_tick : ∀ cs : List Char,
    cs.all (fun c => !(c = '`')) = true → hasTriple cs = false := by
  intro cs
  induction cs with
  | nil => intro _; rfl
  | cons c rest ih =>
    intro h
    rw [List.all_cons, Bool.and_eq_true] at h
    simp only [hasTriple, Bool.or_eq_false_iff]
    exact ⟨fence3_head_false c rest (by simpa using h.1), ih h.2⟩

theorem trimJs_id_of (cs : List Char) (c d : Char) (mid : List Char)
    (hcs : cs = c :: (mid ++ [d])) (hc : isJsWs c = false) (hd : isJsWs d = false) :
    trimJs cs = cs := by
  subst hcs
  unfold trimJs ltrimJs
  rw [List.dropWhile_cons, hc]
  simp only [Bool.false_eq_true, if_false]
  unfold rtrimJs
  have hrev : (c :: (mid ++ [d])).reverse = d :: (mid.reverse ++ [c]) := by
    simp
  rw [hrev, List.dropWhile_cons, hd]
  simp only [Bool.false_eq_true, if_false]
  rw [show d :: (mid.reverse ++ [c]) = (c :: (mid ++ [d])).reverse from hrev.symm,
    List.reverse_reverse]

theorem JSONparseL_some_of (cs : List Char) (v : Json) (hskip : skipWsL cs = cs)
    (hlen : 2 ≤ cs.length) (h : ∀ m, parseV (m + 3) cs = some (v, [])) :
    JSONparseL cs = some v := by
  unfold JSONparseL
  rw [hskip]
  have hfl : cs.length + 1 = (cs.length - 2) + 3 := by omega
  rw [hfl, h (cs.length - 2)]
  rfl

theorem JSONparseL_none_of (cs : List Char) (hskip : skipWsL cs = cs)
    (h : ∀ m, parseV (m + 3) cs = none) (hlen : 2 ≤ cs.length) :
    JSONparseL cs = none := by
  unfold JSONparseL
  rw [hskip]
  have hfl : cs.length + 1 = (cs.length - 2) + 3 := by omega
  rw [hfl, h (cs.length - 2)]

theorem JSONparseL_famDefective (k w b1 b2 : List Char) (hk : cleanKey k = true)
    (hw : w.all isJsonWs = true) (h1 : cleanBody b1 = true) :
    JSONparseL (famDefective k w b1 b2) = none := by
  refine JSONparseL_none_of _ ?_ ?_ ?_
  · exact skipWsL_cons_not '{' _ rfl
  · intro m
    exact parseV_fam_defective k w b1 b2 m (key_strOk k hk) hw (body_strOk b1 h1)
  · simp [famDefective]

theorem JSONparseL_famRepaired (k b1 b2 : List Char) (hk : cleanKey k = true)
    (h1 : cleanBody b1 = true) (h2 : cleanBody b2 = true) :
    JSONparseL (famRepaired k b1 b2) = some (famValue k b1 b2) := by
  have hvb : ∀ r, parseStrBody ((b1 ++ '\\' :: 'n' :: b2) ++ '"' :: r) =
      some (b1 ++ '\n' :: b2, r) := by
    intro r
    have hassoc : (b1 ++ '\\' :: 'n' :: b2) ++ '"' :: r =
        b1 ++ '\\' :: 'n' :: (b2 ++ '"' :: r) := by simp
    rw [hassoc]
    exact parseStrBody_esc b1 b2 r (body_strOk b1 h1) (body_strOk b2 h2)
  refine JSONparseL_some_of _ _ ?_ ?_ ?_
  · exact skipWsL_cons_not '{' _ rfl
  · simp [famRepaired]
  · intro m
    have hshape : famRepaired k b1 b2 =
        '{' :: '"' :: (k ++ '"' :: ':' ::
          ((' ' :: []) ++ '"' :: ((b1 ++ '\\' :: 'n' :: b2) ++ '"' :: '}' :: []))) := by
      simp [famRepaired]
    rw [hshape]
    exact parseV_fam k (' ' :: []) _ _ m (key_strOk k hk) (by decide) hvb

theorem JSONparseL_famEscaped (k w b1 b2 : List Char) (hk : cleanKey k = true)
    (hw : w.all isJsonWs = true) (h1 : cleanBody b1 = true) (h2 : cleanBody b2 = true) :
    JSONparseL (famEscaped k w b1 b2) = some (famValue k b1 b2) := by
  have hvb : ∀ r, parseStrBody ((b1 ++ '\\' :: 'n' :: b2) ++ '"' :: r) =
      some (b1 ++ '\n' :: b2, r) := by
    intro r
    have hassoc : (b1 ++ '\\' :: 'n' :: b2) ++ '"' :: r =
        b1 ++ '\\' :: 'n' :: (b2 ++ '"' :: r) := by simp
    rw [hassoc]
    exact parseStrBody_esc b1 b2 r (body_strOk b1 h1) (body_strOk b2 h2)
  refine JSONparseL_some_of _ _ ?_ ?_ ?_
  · exact skipWsL_cons_not '{' _ rfl
  · simp [famEscaped]
  · intro m
    have hshape : famEscaped k w b1 b2 =
        '{' :: '"' :: (k ++ '"' :: ':' ::
          (w ++ '"' :: ((b1 ++ '\\' :: 'n' :: b2) ++ '"' :: '}' :: []))) := by
      simp [famEscaped]
    rw [hshape]
    exact parseV_fam k w _ _ m (key_strOk k hk) hw hvb

theorem repairDQ_famDefective (k w b1 b2 : List Char) (hk : cleanKey k = true)
    (hw : w.all isJsonWs = true) (h1 : cleanBody b1 = true) (h2 : cleanBody b2 = true) :
    repairDQ (famDefective k w b1 b2) = famRepaired k b1 b2 := by
  have hpfx : ('{' :: '"' :: k ++ ['"']).all (fun c => !(c = ':')) = true := by
    have hkc := cleanKey_no_colon k hk
    simp only [List.all_cons, List.all_append, hkc, Bool.and_eq_true, Bool.true_and,
      Bool.and_true]
    decide
  have hbody : (b1 ++ '\n' :: b2).all dqOk = true := by
    have hb1d : b1.all dqOk = true :=
      all_imp _ _ (fun c h => dq_of_strOk c (strOk_of_plain c h)) b1 h1
    have hb2d : b2.all dqOk = true :=
      all_imp _ _ (fun c h => dq_of_strOk c (strOk_of_plain c h)) b2 h2
    simp only [List.all_append, List.all_cons, hb1d, hb2d, Bool.and_eq_true, Bool.true_and,
      Bool.and_true]
    decide
  have hb1e : b1.all (fun c => !(c = '\n') && !(c = '\\')) = true :=
    all_imp _ _ (fun c h => by
      simp only [Bool.and_eq_true]
      constructor
      · simpa using plain_no_nl c h
      · simpa using plain_no_bs c h) b1 h1
  have hb2e : b2.all (fun c => !(c = '\n')) = true :=
    all_imp _ _ (fun c h => by simpa using plain_no_nl c h) b2 h2
  have hshape : famDefective k w b1 b2 =
      ('{' :: '"' :: k ++ ['"']) ++ ':' ::
        (w ++ '"' :: ((b1 ++ '\n' :: b2) ++ '"' :: '}' :: [])) := by
    simp [famDefective]
  unfold repairDQ
  rw [hshape]
  have hlen : (('{' :: '"' :: k ++ ['"']) ++ ':' ::
      (w ++ '"' :: ((b1 ++ '\n' :: b2) ++ '"' :: '}' :: []))).length + 1 =
      ('{' :: '"' :: k ++ ['"']).length +
        ((w ++ '"' :: ((b1 ++ '\n' :: b2) ++ '"' :: '}' :: [])).length + 2) := by
    simp only [List.length_append, List.length_cons]
    omega
  rw [hlen, repairDQgo_prefix _ _ _ hpfx]
  have hsucc : (w ++ '"' :: ((b1 ++ '\n' :: b2) ++ '"' :: '}' :: [])).length + 2 =
      Nat.succ ((w ++ '"' :: ((b1 ++ '\n' :: b2) ++ '"' :: '}' :: [])).length + 1) := rfl
  rw [hsucc, repairDQgo.eq_def]
  simp only [if_pos (rfl : (':' : Char) = ':')]
  rw [matchDQ_fam w (b1 ++ '\n' :: b2) ('}' :: []) hw hbody]
  try simp only []
  rw [show escNL (b1 ++ '\n' :: b2) = escNLgo none (b1 ++ '\n' :: b2) from rfl]
  rw [escNL_mid b1 none b2 hb1e hb2e (by simp)]
  rw [repairDQgo_id _ ('}' :: []) (by decide)]
  simp [famRepaired]

/-- The repaired text contains no single quote, so the single-quote pass is
    the identity on it. -/
theorem famRepaired_no_sq (k b1 b2 : List Char) (hk : cleanKey k = true)
    (h1 : cleanBody b1 = true) (h2 : cleanBody b2 = true) :
    (famRepaired k b1 b2).all (fun c => !(c = sqChar)) = true := by
  have hks : k.all (fun c => !(c = sqChar)) = true :=
    all_imp _ _ (fun c h => by simpa using plain_no_sq c h) k (cleanKey_plain k hk)
  have h1s : b1.all (fun c => !(c = sqChar)) = true :=
    all_imp _ _ (fun c h => by simpa using plain_no_sq c h) b1 h1
  have h2s : b2.all (fun c => !(c = sqChar)) = true :=
    all_imp _ _ (fun c h => by simpa using plain_no_sq c h) b2 h2
  simp only [famRepaired, List.all_cons, List.all_append, hks, h1s, h2s, Bool.and_eq_true,
    Bool.true_and, Bool.and_true]
  decide

theorem repairL_famDefective (k w b1 b2 : List Char) (hk : cleanKey k = true)
    (hw : w.all isJsonWs = true) (h1 : cleanBody b1 = true) (h2 : cleanBody b2 = true) :
    repairL (famDefective k w b1 b2) = famRepaired k b1 b2 := by
  unfold repairL repairSQ
  rw [repairDQ_famDefective k w b1 b2 hk hw h1 h2]
  exact repairSQgo_id _ _ (famRepaired_no_sq k b1 b2 hk h1 h2)

/-- The double-quote repair pass on the pre-escaped text: the matched span is
    rewritten with the normalized `: "` separator, but the already-escaped
    newline inside it is untouched. -/
theorem repairDQ_famEscaped (k w b1 b2 : List Char) (hk : cleanKey k = true)
    (hw : w.all isJsonWs = true) (h1 : cleanBody b1 = true) (h2 : cleanBody b2 = true) :
    repairDQ (famEscaped k w b1 b2) = famRepaired k b1 b2 := by
  have hpfx : ('{' :: '"' :: k ++ ['"']).all (fun c => !(c = ':')) = true := by
    have hkc := cleanKey_no_colon k hk
    simp only [List.all_cons, List.all_append, hkc, Bool.and_eq_true, Bool.true_and,
      Bool.and_true]
    decide
  have hb1d : b1.all dqOk = true :=
    all_imp _ _ (fun c h => dq_of_strOk c (strOk_of_plain c h)) b1 h1
  have hb2d : b2.all dqOk = true :=
    all_imp _ _ (fun c h => dq_of_strOk c (strOk_of_plain c h)) b2 h2
  have hb1n : b1.all (fun c => !(c = '\n')) = true :=
    all_imp _ _ (fun c h => by simpa using plain_no_nl c h) b1 h1
  have hb2n : b2.all (fun c => !(c = '\n')) = true :=
    all_imp _ _ (fun c h => by simpa using plain_no_nl c h) b2 h2
  have hshape : famEscaped k w b1 b2 =
      ('{' :: '"' :: k ++ ['"']) ++ ':' ::
        (w ++ '"' :: (b1 ++ '\\' :: 'n' :: (b2 ++ '"' :: '}' :: []))) := by
    simp [famEscaped]
  unfold repairDQ
  rw [hshape]
  have hlen : (('{' :: '"' :: k ++ ['"']) ++ ':' ::
      (w ++ '"' :: (b1 ++ '\\' :: 'n' :: (b2 ++ '"' :: '}' :: [])))).length + 1 =
      ('{' :: '"' :: k ++ ['"']).length +
        ((w ++ '"' :: (b1 ++ '\\' :: 'n' :: (b2 ++ '"' :: '}' :: []))).length + 2) := by
    simp only [List.length_append, List.length_cons]
    omega
  rw [hlen, repairDQgo_prefix _ _ _ hpfx]
  have hsucc : (w ++ '"' :: (b1 ++ '\\' :: 'n' :: (b2 ++ '"' :: '}' :: []))).length + 2 =
      Nat.succ ((w ++ '"' :: (b1 ++ '\\' :: 'n' :: (b2 ++ '"' :: '}' :: []))).length + 1) :=
    rfl
  rw [hsucc, repairDQgo.eq_def]
  simp only [if_pos (rfl : (':' : Char) = ':')]
  rw [matchDQ_esc w b1 b2 ('}' :: []) hw hb1d hb2d]
  try simp only []
  rw [escNL_esc_id b1 b2 hb1n hb2n]
  rw [repairDQgo_id _ ('}' :: []) (by decide)]
  simp [famRepaired]

/-- The full repair pass on the pre-escaped text: the escape sequence passes
    through untouched; only the colon-to-quote whitespace is normalized. -/
theorem repairL_famEscaped (k w b1 b2 : List Char) (hk : cleanKey k = true)
    (hw : w.all isJsonWs = true) (h1 : cleanBody b1 = true) (h2 : cleanBody b2 = true) :
    repairL (famEscaped k w b1 b2) = famRepaired k b1 b2 := by
  unfold repairL repairSQ
  rw [repairDQ_famEscaped k w b1 b2 hk hw h1 h2]
  exact repairSQgo_id _ _ (famRepaired_no_sq k b1 b2 hk h1 h2)

theorem extract_famDefective (k w b1 b2 : List Char) (ctx : String)
    (hk : cleanKey k = true) (hw : w.all isJsonWs = true)
    (h1 : cleanBody b1 = true) (h2 : cleanBody b2 = true) :
    extractAndParseJson (some (String.mk (famDefective k w b1 b2))) ctx =
      some (famValue k b1 b2) := by
  have hne : ¬String.mk (famDefective k w b1 b2) = "" := by
    intro h
    have hd := congrArg String.data h
    rw [show (String.mk (famDefective k w b1 b2)).data = famDefective k w b1 b2 from rfl]
      at hd
    simp [famDefective] at hd
  simp only [extractAndParseJson, if_neg hne]
  show extractCore (famDefective k w b1 b2) = _
  have htriple : hasTriple (famDefective k w b1 b2) = false :=
    hasTriple_of_no_tick _ (famDefective_no_tick k w b1 b2 hk hw h1 h2)
  have hstrip : stripFences (famDefective k w b1 b2) = famDefective k w b1 b2 := by
    unfold stripFences
    rw [stripLeadFrom_id _ true htriple, goTrail_id _ htriple]
  have htrim : trimJs (famDefective k w b1 b2) = famDefective k w b1 b2 := by
    refine trimJs_id_of _ '{' '}'
      ('"' :: (k ++ '"' :: ':' :: (w ++ '"' :: (b1 ++ '\n' :: b2 ++ ['"'])))) ?_ rfl rfl
    simp [famDefective]
  have hlook : looksNonJson (famDefective k w b1 b2) = false := by
    show looksNonJson ('{' :: _) = false
    simp [looksNonJson, leadMatch]
  unfold extractCore
  rw [hstrip, htrim]
  show (if looksNonJson (famDefective k w b1 b2) = true then none
      else
        match JSONparseL (famDefective k w b1 b2) with
        | some v => some v
        | none => JSONparseL (repairL (famDefective k w b1 b2))) =
    some (famValue k b1 b2)
  rw [hlook]
  simp only [Bool.false_eq_true, if_false]
  rw [JSONparseL_famDefective k w b1 b2 hk hw h1]
  rw [repairL_famDefective k w b1 b2 hk hw h1 h2,
    JSONparseL_famRepaired k b1 b2 hk h1 h2]

/-- C5, counterexample: the repair pass normalizes the whitespace between a
    matched colon and the opening quote to one space, so a character outside
    the quoted string span is not byte-identical after repair: on
    `{"a":"x<newline>y"}` the actual output inserts a space that the claim's
    byte-identity conjunct forbids. -/
theorem C5_scoped_repair_cx :
    JSONparse ("\x7b\"a\":\"x\ny\"\x7d") = none ∧
    repairString ("\x7b\"a\":\"x\ny\"\x7d") = "\x7b\"a\": \"x\\ny\"\x7d" ∧
    ("\x7b\"a\": \"x\\ny\"\x7d" : String) ≠ "\x7b\"a\":\"x\\ny\"\x7d" :=
  ⟨rfl, rfl, by decide⟩

/-- C5, amended and scoped to the single-field-object family
    `{"key"<ws>:"body1<NL>body2"}` over printable key/body characters free of
    quotes, backslashes, backticks and (for the key) colons, with a JSON
    whitespace separator: the defective text fails the strict parse; the
    repair pass replaces exactly the literal newline by the escape `\n`
    inside the quoted span and leaves every other character byte-identical
    except that the colon-to-quote whitespace of the matched span is
    normalized to a single space; on the same text with the newline already
    escaped, the repair pass leaves the escaped sequence untouched (producing
    the same output, differing from its input only in that whitespace
    normalization); the repaired text parses, structurally equal to the parse
    of the pre-escaped text; and `extractAndParseJson` on the defective text
    returns that value. -/
theorem C5_scoped_repair (k w b1 b2 : List Char) (ctx : String)
    (hk : cleanKey k = true) (hw : w.all isJsonWs = true)
    (h1 : cleanBody b1 = true) (h2 : cleanBody b2 = true) :
    JSONparseL (famDefective k w b1 b2) = none ∧
    repairL (famDefective k w b1 b2) = famRepaired k b1 b2 ∧
    repairL (famEscaped k w b1 b2) = famRepaired k b1 b2 ∧
    JSONparseL (famRepaired k b1 b2) = some (famValue k b1 b2) ∧
    JSONparseL (famEscaped k w b1 b2) = some (famValue k b1 b2) ∧
    extractAndParseJson (some (String.mk (famDefective k w b1 b2))) ctx =
      some (famValue k b1 b2) :=
  ⟨JSONparseL_famDefective k w b1 b2 hk hw h1,
   repairL_famDefective k w b1 b2 hk hw h1 h2,
   repairL_famEscaped k w b1 b2 hk hw h1 h2,
   JSONparseL_famRepaired k b1 b2 hk h1 h2,
   JSONparseL_famEscaped k w b1 b2 hk hw h1 h2,
   extract_famDefective k w b1 b2 ctx hk hw h1 h2⟩

/-- Witness for C5 at the concrete text `{"a": "x<newline>y"}`. -/
theorem C5_scoped_repair_witness :
    extractAndParseJson
      (some (String.mk (famDefective ("a").data (" ").data ("x").data ("y").data))) ("c") =
      some (famValue ("a").data ("x").data ("y").data) :=
  (C5_scoped_repair ("a").data (" ").data ("x").data ("y").data ("c")
    (by decide) (by decide) (by decide) (by decide)).2.2.2.2.2

/-- All token positions of an inverted index, in enumeration order. -/
def allPositions (idx : List (String × List Nat)) : List Nat :=
  idx.flatMap Prod.snd

/-- All (position, word) pairs of an inverted index, in enumeration order. -/
def pairsOf (idx : List (String × List Nat)) : List (Nat × String) :=
  idx.flatMap fun e => e.2.map fun p => (p, e.1)

theorem alSet_not_mem (m : List (Nat × String)) (p : Nat) (w : String)
    (h : p ∉ m.map Prod.fst) : alSet m p w = m ++ [(p, w)] := by
  induction m with
  | nil => rfl
  | cons a rest ih =>
    obtain ⟨q, v⟩ := a
    simp only [List.map_cons, List.mem_cons, not_or] at h
    simp only [alSet]
    rw [if_neg (fun hqp => h.1 hqp.symm), ih h.2]
    simp

theorem posFoldAppend : ∀ (ps : List Nat) (w : String) (m : List (Nat × String)),
    (m.map Prod.fst ++ ps).Nodup →
    ps.foldl (fun m2 p => alSet m2 p w) m = m ++ ps.map fun p => (p, w) := by
  intro ps
  induction ps with
  | nil => intro w m _; simp
  | cons p rest ih =>
    intro w m h
    have hdisj := (List.nodup_append.mp h).2.2
    have hp : p ∉ m.map Prod.fst := fun hin => hdisj hin (List.mem_cons_self p rest)
    simp only [List.foldl_cons]
    rw [alSet_not_mem m p w hp]
    have h2 : ((m ++ [(p, w)]).map Prod.fst ++ rest).Nodup := by
      simp only [List.map_append, List.map_cons, List.map_nil]
      rw [List.append_assoc]
      simpa using h
    rw [ih w (m ++ [(p, w)]) h2]
    simp

theorem buildAux : ∀ (idx : List (String × List Nat)) (m : List (Nat × String)),
    (m.map Prod.fst ++ allPositions idx).Nodup →
    idx.foldl (fun m2 e => e.2.foldl (fun m3 p => alSet m3 p e.1) m2) m =
      m ++ pairsOf idx := by
  intro idx
  induction idx with
  | nil => intro m _; simp [pairsOf]
  | cons e rest ih =>
    intro m h
    have hpos : allPositions (e :: rest) = e.2 ++ allPositions rest := by
      simp [allPositions]
    rw [hpos, ← List.append_assoc] at h
    simp only [List.foldl_cons]
    rw [posFoldAppend e.2 e.1 m (h.sublist (List.sublist_append_left _ _))]
    have h2 : ((m ++ e.2.map fun p => (p, e.1)).map Prod.fst ++ allPositions rest).Nodup := by
      simp only [List.map_append, List.map_map]
      have hcomp : (Prod.fst ∘ fun p : Nat => (p, e.1)) = id := rfl
      rw [hcomp, List.map_id]
      exact h
    rw [ih (m ++ e.2.map fun p => (p, e.1)) h2]
    simp [pairsOf]

/-- With globally distinct positions the map-building loops never overwrite:
    the resulting association list is exactly the pair list in order. -/
theorem buildPosMap_eq (idx : List (String × List Nat))
    (h : (allPositions idx).Nodup) : buildPosMap idx = pairsOf idx := by
  have := buildAux idx [] (by simpa using h)
  simpa [buildPosMap] using this

theorem pairsOf_map_fst (idx : List (String × List Nat)) :
    (pairsOf idx).map Prod.fst = allPositions idx := by
  induction idx with
  | nil => rfl
  | cons e rest ih =>
    simp only [pairsOf, allPositions, List.flatMap_cons, List.map_append, List.map_map] at *
    rw [ih]
    congr 1
    have hcomp : (Prod.fst ∘ fun p : Nat => (p, e.1)) = id := rfl
    rw [hcomp, List.map_id]

theorem alGet_of_mem : ∀ (m : List (Nat × String)) (p : Nat) (w : String),
    (m.map Prod.fst).Nodup → (p, w) ∈ m → alGet m p = w := by
  intro m
  induction m with
  | nil => simp
  | cons a rest ih =>
    intro p w hnd hmem
    obtain ⟨q, v⟩ := a
    simp only [List.map_cons, List.nodup_cons] at hnd
    rcases List.mem_cons.mp hmem with heq | hmem2
    · obtain ⟨hp, hw⟩ := Prod.mk.injEq .. ▸ heq
      subst hp; subst hw
      simp [alGet]
    · have hq : q ≠ p := by
        intro hqp
        subst hqp
        exact hnd.1 (List.mem_map.mpr ⟨(q, w), hmem2, rfl⟩)
      simp only [alGet, if_neg hq]
      exact ih p w hnd.2 hmem2

theorem alGet_of_not_mem : ∀ (m : List (Nat × String)) (p : Nat),
    p ∉ m.map Prod.fst → alGet m p = "" := by
  intro m
  induction m with
  | nil => intro p _; rfl
  | cons a rest ih =>
    intro p h
    obtain ⟨q, v⟩ := a
    simp only [List.map_cons, List.mem_cons, not_or] at h
    have hq : ¬ q = p := fun hqp => h.1 hqp.symm
    simp only [alGet, if_neg hq]
    exact ih p h.2

theorem alGet_perm (m m' : List (Nat × String)) (hperm : m.Perm m')
    (hnd : (m.map Prod.fst).Nodup) (p : Nat) : alGet m p = alGet m' p := by
  by_cases hp : p ∈ m.map Prod.fst
  · obtain ⟨a, ha, hfa⟩ := List.mem_map.mp hp
    obtain ⟨q, w⟩ := a
    simp only at hfa
    subst hfa
    rw [alGet_of_mem m q w hnd ha,
      alGet_of_mem m' q w (((hperm.map Prod.fst).nodup_iff).mp hnd) (hperm.subset ha)]
  · rw [alGet_of_not_mem m p hp,
      alGet_of_not_mem m' p (fun h => hp (((hperm.map Prod.fst).mem_iff).mpr h))]

/-- C7, counterexample: when two words share a position, the later-enumerated
    word overwrites the earlier one, so the output depends on the key
    enumeration order of the input. -/
theorem C7_invert_abstract_cx :
    invertAbstract [("a", [0]), ("b", [0])] = "b" ∧
    invertAbstract [("b", [0]), ("a", [0])] = "a" ∧
    ("b" : String) ≠ "a" :=
  ⟨rfl, rfl, by decide⟩

/-- C7, amended: for every inverted index whose token positions are globally
    distinct (each position carries one word — the well-formedness of a real
    inverted index), `invertAbstract` is invariant under permutations of the
    key enumeration order and returns the words joined by single spaces in
    strictly ascending position order; in particular
    `{"quick": [0], "fox": [1]}` yields `"quick fox"`. -/
theorem C7_invert_abstract_amended :
    invertAbstract [("quick", [0]), ("fox", [1])] = "quick fox" ∧
    ∀ idx : List (String × List Nat), (allPositions idx).Nodup →
      (∀ idx', idx.Perm idx' → invertAbstract idx' = invertAbstract idx) ∧
      invertAbstract idx =
        String.intercalate " "
          ((List.insertionSort (· ≤ ·) (allPositions idx)).map (alGet (buildPosMap idx))) ∧
      (List.insertionSort (· ≤ ·) (allPositions idx)).Sorted (· < ·) ∧
      (∀ w ps p, (w, ps) ∈ idx → p ∈ ps → alGet (buildPosMap idx) p = w) := by
  refine ⟨rfl, ?_⟩
  intro idx hnd
  have hkeys : (buildPosMap idx).map Prod.fst = allPositions idx := by
    rw [buildPosMap_eq idx hnd, pairsOf_map_fst]
  refine ⟨?_, ?_, ?_, ?_⟩
  · intro idx' hperm
    have hposPerm : (allPositions idx).Perm (allPositions idx') :=
      List.Perm.flatMap_right Prod.snd hperm
    have hnd' : (allPositions idx').Nodup := hposPerm.nodup_iff.mp hnd
    have hkeys' : (buildPosMap idx').map Prod.fst = allPositions idx' := by
      rw [buildPosMap_eq idx' hnd', pairsOf_map_fst]
    have hmapPerm : (buildPosMap idx).Perm (buildPosMap idx') := by
      rw [buildPosMap_eq idx hnd, buildPosMap_eq idx' hnd']
      exact List.Perm.flatMap_right _ hperm
    have hsortEq : List.insertionSort (· ≤ ·) (allPositions idx') =
        List.insertionSort (· ≤ ·) (allPositions idx) := by
      refine List.eq_of_perm_of_sorted ?_ (List.sorted_insertionSort _ _)
        (List.sorted_insertionSort _ _)
      exact ((List.perm_insertionSort _ _).trans hposPerm.symm).trans
        (List.perm_insertionSort _ _).symm
    simp only [invertAbstract, hkeys, hkeys', hsortEq]
    refine congrArg _ (List.map_congr_left ?_)
    intro p _
    exact (alGet_perm _ _ hmapPerm (by rw [hkeys]; exact hnd) p).symm
  · simp only [invertAbstract, hkeys]
  · exact List.Sorted.lt_of_le (List.sorted_insertionSort _ _)
      (((List.perm_insertionSort _ _).nodup_iff).mpr hnd)
  · intro w ps p hmem hp
    refine alGet_of_mem _ p w (by rw [hkeys]; exact hnd) ?_
    rw [buildPosMap_eq idx hnd]
    simp only [pairsOf, List.mem_flatMap]
    exact ⟨(w, ps), hmem, List.mem_map.mpr ⟨p, hp, rfl⟩⟩

/-- Witness for C7: the two-word index in either enumeration order yields
    `"quick fox"`. -/
theorem C7_invert_abstract_amended_witness :
    invertAbstract [("fox", [1]), ("quick", [0])] = "quick fox" := by
  have h := (C7_invert_abstract_amended.2 [("quick", [0]), ("fox", [1])] (by decide)).1
    [("fox", [1]), ("quick", [0])] (List.Perm.swap _ _ _)
  rw [h]
  exact C7_invert_abstract_amended.1

/-- C8: `callGemini` either returns the first candidate's raw text unparsed
    or throws one error whose message names the stage context; the envelope
    checks run in the fixed order "missing body, blocked prompt, no
    candidates, missing text" (each earlier failure wins whatever the later
    fields hold), and an abnormal `finishReason` is warn-only — the success
    conjunct places no condition on it. -/
theorem C8_gateway_envelope :
    (∀ (net : Except String (Option GeminiData)) (context : String),
      (∀ t, callGemini net context = .ok t →
        ∃ d c rest, net = .ok (some d) ∧ d.candidates = some (c :: rest) ∧
          candidateText c = some t) ∧
      (∀ e, callGemini net context = .error e →
        e = "Failed to get response from AI for " ++ context ++ ".")) ∧
    (callGeminiInner none = .error ("Empty response from Gemini API")) ∧
    (∀ d br, jsTruthyStr (d.promptFeedback.bind PromptFeedback.blockReason) = some br →
      callGeminiInner (some d) =
        .error ("AI request blocked due to safety settings: " ++ br)) ∧
    (∀ d, jsTruthyStr (d.promptFeedback.bind PromptFeedback.blockReason) = none →
      (d.candidates = none ∨ d.candidates = some []) →
      callGeminiInner (some d) =
        .error ("No response generated by AI. Reason: " ++ noCandFinishReason d)) ∧
    (∀ d c rest, jsTruthyStr (d.promptFeedback.bind PromptFeedback.blockReason) = none →
      d.candidates = some (c :: rest) → jsTruthyStr (candidateText c) = none →
      callGeminiInner (some d) =
        .error ("Invalid response structure from Gemini API (missing text)")) ∧
    (∀ d c rest t context,
      jsTruthyStr (d.promptFeedback.bind PromptFeedback.blockReason) = none →
      d.candidates = some (c :: rest) → candidateText c = some t → t ≠ "" →
      callGeminiInner (some d) = .ok t ∧ callGemini (.ok (some d)) context = .ok t) := by
  have jsTruthyStr_eq_some : ∀ (v : Option String) (s : String),
      jsTruthyStr v = some s → v = some s := by
    intro v s h
    rcases v with _ | x
    · simp [jsTruthyStr] at h
    · simp only [jsTruthyStr] at h
      split at h
      · simp at h
      · simp only [Option.some.injEq] at h
        rw [h]
  refine ⟨?_, rfl, ?_, ?_, ?_, ?_⟩
  · intro net context
    constructor
    · intro t ht
      rcases net with e | d
      · simp [callGemini] at ht
      · rcases d with _ | d
        · simp [callGemini, callGeminiInner] at ht
        · simp only [callGemini] at ht
          rcases hinner : callGeminiInner (some d) with e | t'
          · rw [hinner] at ht; simp at ht
          · rw [hinner] at ht
            simp only [Except.ok.injEq] at ht
            subst ht
            refine ⟨d, ?_⟩
            simp only [callGeminiInner] at hinner
            rcases hbr : jsTruthyStr (d.promptFeedback.bind PromptFeedback.blockReason) with
              _ | br <;> rw [hbr] at hinner
            · rcases hc : d.candidates with _ | cl <;> rw [hc] at hinner
              · simp at hinner
              · rcases cl with _ | ⟨c, rest⟩
                · simp at hinner
                · simp only [] at hinner
                  rcases htx : jsTruthyStr (candidateText c) with _ | t2
                  · rw [htx] at hinner; simp at hinner
                  · rw [htx] at hinner
                    simp only [Except.ok.injEq] at hinner
                    exact ⟨c, rest, rfl, rfl, by rw [jsTruthyStr_eq_some _ _ htx, hinner]⟩
            · simp at hinner
    · intro e he
      rcases net with e2 | d
      · simp only [callGemini] at he
        simp at he
        exact he.symm
      · rcases hinner : callGeminiInner d with e3 | t
        · simp only [callGemini, hinner] at he
          simp at he
          exact he.symm
        · simp only [callGemini, hinner] at he
          simp at he
  · intro d br hbr; simp [callGeminiInner, hbr]
  · intro d hbr hc
    rcases hc with hc | hc <;> simp [callGeminiInner, hbr, hc]
  · intro d c rest hbr hc htx; simp [callGeminiInner, hbr, hc, htx]
  · intro d c rest t context hbr hc htx hne
    have hinner : callGeminiInner (some d) = .ok t := by
      simp only [callGeminiInner, hbr, hc]
      rw [htx]
      simp [jsTruthyStr, hne]
    exact ⟨hinner, by simp [callGemini, hinner]⟩

/-- Witness for C8: a well-formed envelope with an abnormal finish reason
    still yields the candidate's text. -/
theorem C8_gateway_envelope_witness :
    callGemini
      (.ok (some
        { promptFeedback := none
          candidates := some [{ finishReason := some ("MAX_TOKENS")
                                content := some { parts := some [{ text := some ("out") }] } }] }))
      ("methodology") = .ok "out" :=
  (C8_gateway_envelope.2.2.2.2.2
    { promptFeedback := none
      candidates := some [{ finishReason := some ("MAX_TOKENS")
                            content := some { parts := some [{ text := some ("out") }] } }] }
    { finishReason := some ("MAX_TOKENS")
      content := some { parts := some [{ text := some ("out") }] } }
    [] "out" ("methodology") rfl rfl rfl (by decide)).2

end ThesisPlanner
